import Mathlib

/-!
Verification of the event aggregation core of the website-analytics repository:
the daily-stats bulk aggregation (`lib/stats.ts`), the session tracker, the
session-metric recalculation, the batch-flushing worker (`worker/processor.ts`)
and the event validator (`lib/validateEvent.ts`), embedded shallowly.
-/

set_option maxHeartbeats 1000000
set_option linter.unnecessarySeqFocus false

/-- A dimension-count map (`path_counts`, `device_counts`, `browser_counts`,
`referrer_counts`): an association list from dimension value to integer count,
mirroring both the insertion-ordered JS `Map` built in `buildDailyStatsBulkOps`
and the Mongo sub-document updated via `$inc` with dot notation (an existing
key is updated in place, a new key is appended). -/
abbrev CMap := List (String × Nat)

/-- Value of key `k` in a count map; a missing key counts as `0`
(`map.get(k) || 0` in the JS code, and Mongo `$inc` treating an absent
field as `0`). -/
def lookupD : CMap → String → Nat
  | [], _ => 0
  | p :: rest, k => if p.1 = k then p.2 else lookupD rest k

/-- Add `n` to key `k`: update the entry in place when present, append
`(k, n)` otherwise — the semantics of `map.set(k, (map.get(k) || 0) + n)`
and of a Mongo `$inc` on a document key. -/
def bumpBy : CMap → String → Nat → CMap
  | [], k, n => [(k, n)]
  | p :: rest, k, n => if p.1 = k then (p.1, p.2 + n) :: rest else p :: bumpBy rest k n

/-- Increment key `k` by one. -/
def bump (m : CMap) (k : String) : CMap := bumpBy m k 1

/-- JS truthiness of an optional string field: `undefined` and `""` are falsy,
so `if (ev.device_type) { … }` runs precisely when
`truthyVal ev.device_type = some v` for the (non-empty) value `v`. -/
def truthyVal : Option String → Option String
  | none => none
  | some s => if s = "" then none else some s

/-- The `if (field) { increment }` pattern used for the optional dimensions. -/
def optBump (m : CMap) (o : Option String) : CMap :=
  match truthyVal o with
  | none => m
  | some s => bump m s

/-- Sum of all counts stored in a count map. -/
def sumVals (m : CMap) : Nat := (m.map Prod.snd).sum

/-- Sum of the counts stored under key `k` (equals `lookupD` on the maps the
code builds, but satisfies an unconditional sum recurrence). -/
def sumKey (m : CMap) (k : String) : Nat :=
  (m.map (fun p => if p.1 = k then p.2 else 0)).sum

/-- `Set.add` insertion order / Mongo `$addToSet`: append `v` unless already
present. -/
def insertIfAbsent (l : List String) (v : String) : List String :=
  if v ∈ l then l else l ++ [v]

/-- `$addToSet … $each`: insert a list of values one after the other. -/
def insertAll (l : List String) (vs : List String) : List String :=
  vs.foldl insertIfAbsent l

theorem lookupD_bumpBy (m : CMap) (k : String) (n : Nat) (p : String) :
    lookupD (bumpBy m k n) p = lookupD m p + (if p = k then n else 0) := by
  induction m with
  | nil =>
    by_cases h : p = k <;> simp [bumpBy, lookupD, h]
    intro h'; exact absurd h'.symm h
  | cons hd tl ih =>
    by_cases hh : hd.1 = k
    · by_cases hp : hd.1 = p
      · simp [bumpBy, lookupD, hh, hp, hp ▸ hh]
      · have h1 : ¬ p = k := fun h => hp (by rw [hh, h])
        have h2 : ¬ k = p := fun h => h1 h.symm
        simp [bumpBy, lookupD, hh, hp, h1, h2]
    · by_cases hp : hd.1 = p
      · have : ¬ p = k := fun h => hh (by rw [hp, h])
        simp [bumpBy, lookupD, hh, hp, this]
      · simp [bumpBy, lookupD, hh, hp, ih]

theorem sumKey_bumpBy (m : CMap) (k : String) (n : Nat) (p : String) :
    sumKey (bumpBy m k n) p = sumKey m p + (if p = k then n else 0) := by
  induction m with
  | nil =>
    by_cases h : p = k <;> simp [bumpBy, sumKey, h]
    intro h'; exact absurd h'.symm h
  | cons hd tl ih =>
    simp only [sumKey] at ih
    by_cases hh : hd.1 = k
    · by_cases hp : hd.1 = p
      · simp [bumpBy, sumKey, hh, hp, hp ▸ hh]; omega
      · have h1 : ¬ p = k := fun h => hp (by rw [hh, h])
        have h2 : ¬ k = p := fun h => h1 h.symm
        simp [bumpBy, sumKey, hh, hp, h1, h2]
    · by_cases hp : hd.1 = p
      · have : ¬ p = k := fun h => hh (by rw [hp, h])
        simp [bumpBy, sumKey, hh, hp, this, ih]
      · simp [bumpBy, sumKey, hh, hp, ih]

theorem sumVals_bumpBy (m : CMap) (k : String) (n : Nat) :
    sumVals (bumpBy m k n) = sumVals m + n := by
  induction m with
  | nil => simp [bumpBy, sumVals]
  | cons hd tl ih =>
    by_cases hh : hd.1 = k
    · simp [bumpBy, sumVals, hh]; omega
    · simp [bumpBy, sumVals, hh] at ih ⊢; omega

theorem lookupD_optBump (m : CMap) (o : Option String) (p : String) :
    lookupD (optBump m o) p
      = lookupD m p + (if truthyVal o = some p then 1 else 0) := by
  cases h : truthyVal o with
  | none => simp [optBump, h]
  | some s =>
    by_cases hp : p = s
    · simp [optBump, h, bump, lookupD_bumpBy, hp]
    · simp [optBump, h, bump, lookupD_bumpBy, hp, Ne.symm hp]

theorem sumKey_optBump (m : CMap) (o : Option String) (p : String) :
    sumKey (optBump m o) p
      = sumKey m p + (if truthyVal o = some p then 1 else 0) := by
  cases h : truthyVal o with
  | none => simp [optBump, h]
  | some s =>
    by_cases hp : p = s
    · simp [optBump, h, bump, sumKey_bumpBy, hp]
    · simp [optBump, h, bump, sumKey_bumpBy, hp, Ne.symm hp]

theorem mem_insertIfAbsent (l : List String) (x v : String) :
    v ∈ insertIfAbsent l x ↔ v ∈ l ∨ v = x := by
  unfold insertIfAbsent
  by_cases h : x ∈ l
  · simp [h]; intro hv; rw [hv]; exact h
  · simp [h]

theorem insertIfAbsent_of_mem {l : List String} {x : String} (h : x ∈ l) :
    insertIfAbsent l x = l := by
  simp [insertIfAbsent, h]

theorem length_insertIfAbsent (l : List String) (x : String) :
    l.length ≤ (insertIfAbsent l x).length := by
  unfold insertIfAbsent
  by_cases h : x ∈ l <;> simp [h]

theorem mem_insertAll (l vs : List String) (v : String) :
    v ∈ insertAll l vs ↔ v ∈ l ∨ v ∈ vs := by
  induction vs generalizing l with
  | nil => simp [insertAll]
  | cons hd tl ih =>
    show v ∈ insertAll (insertIfAbsent l hd) tl ↔ _
    rw [ih, mem_insertIfAbsent]
    simp; tauto

theorem length_insertAll (l vs : List String) :
    l.length ≤ (insertAll l vs).length := by
  induction vs generalizing l with
  | nil => simp [insertAll]
  | cons hd tl ih =>
    exact le_trans (length_insertIfAbsent l hd) (ih (insertIfAbsent l hd))

/-- The per-event record handed to `buildDailyStatsBulkOps` (and, field for
field, the arguments of `incrementStatsForEvent`): bucket identity, visitor,
path, and the optional dimensions. -/
structure SEvent where
  site_id : String
  date : String
  visitor_id : String
  path : String
  device_type : Option String := none
  browser : Option String := none
  referrer : Option String := none
  deriving DecidableEq, Repr

/-- The grouping key used by `buildDailyStatsBulkOps`:
``const key = `${ev.site_id}::${ev.date}`;``. -/
def keyOf (ev : SEvent) : String := ev.site_id ++ "::" ++ ev.date

/-- The `(site_id, date)` bucket identity of an event. -/
def pairOfEvent (ev : SEvent) : String × String := (ev.site_id, ev.date)

/-- One accumulated entry of the `opsMap`, which is also everything a single
emitted `updateOne` upsert operation carries: the filter `(site_id, date)`,
the `$inc` payload (`total_views` plus the four dimension maps) and the
`$addToSet` member list. -/
structure OpEntry where
  site_id : String
  date : String
  total_views : Nat
  users : List String
  pathCounts : CMap
  deviceCounts : CMap
  browserCounts : CMap
  referrerCounts : CMap
  deriving DecidableEq, Repr

/-- The bucket identity an upsert operation targets. -/
def pairOfOp (op : OpEntry) : String × String := (op.site_id, op.date)

/-- The fresh entry created when a key is first seen
(`opsMap.set(key, { site_id, date, inc: { total_views: 0 }, … })`). -/
def emptyEntry (s d : String) : OpEntry :=
  ⟨s, d, 0, [], [], [], [], []⟩

/-- The body of the `for (const ev of events)` loop in
`buildDailyStatsBulkOps`, applied to the entry for the event's key. -/
def addEvent (e : OpEntry) (ev : SEvent) : OpEntry :=
  { e with
    total_views := e.total_views + 1
    users := insertIfAbsent e.users ev.visitor_id
    pathCounts := bump e.pathCounts ev.path
    deviceCounts := optBump e.deviceCounts ev.device_type
    browserCounts := optBump e.browserCounts ev.browser
    referrerCounts := optBump e.referrerCounts ev.referrer }

/-- The insertion-ordered `opsMap : Map<string, entry>`. -/
abbrev OpsMap := List (String × OpEntry)

/-- `opsMap.get(k)` (with `has(k) = (findEnt m k).isSome`). -/
def findEnt : OpsMap → String → Option OpEntry
  | [], _ => none
  | p :: rest, k => if p.1 = k then some p.2 else findEnt rest k

/-- One iteration of the accumulation loop: create the entry if the key is
new, then apply the per-event increments to it. -/
def mapUpd (m : OpsMap) (ev : SEvent) : OpsMap :=
  if (findEnt m (keyOf ev)).isSome then
    m.map (fun p => if p.1 = keyOf ev then (p.1, addEvent p.2 ev) else p)
  else
    m ++ [(keyOf ev, addEvent (emptyEntry ev.site_id ev.date) ev)]

/-- The fully accumulated `opsMap` for a batch. -/
def buildOpsMap (events : List SEvent) : OpsMap :=
  events.foldl mapUpd []

/-- `buildDailyStatsBulkOps`: accumulate the batch into the keyed map, then
emit one upsert operation per map entry, in insertion order. -/
def buildDailyStatsBulkOps (events : List SEvent) : List OpEntry :=
  (buildOpsMap events).map Prod.snd

/-- One `daily_stats` document's counter state. The derived session-metric
fields are not touched by event aggregation and are modelled separately. -/
structure Bucket where
  total_views : Nat
  unique_users : List String
  path_counts : CMap
  device_counts : CMap
  browser_counts : CMap
  referrer_counts : CMap
  deriving DecidableEq, Repr

/-- The implicit initial state of a bucket: Mongo upserts with `$inc` /
`$addToSet` treat a missing document as all-zero counters and empty
collections, which is also what `createDailyStats` seeds via `$setOnInsert`. -/
def emptyBucket : Bucket := ⟨0, [], [], [], [], []⟩

/-- The `daily_stats` collection, total over bucket keys with the implicit
empty default (upsert-with-defaults semantics). -/
abbrev StatsStore := String → String → Bucket

def emptyStore : StatsStore := fun _ _ => emptyBucket

/-- Effect of the single-event update document built by
`incrementStatsForEvent` on the bucket it targets: `$inc total_views: 1`,
`$addToSet unique_users: visitor_id`, `$inc path_counts.<path>: 1`, and a
conditional `$inc` for each truthy optional dimension. -/
def applyIncB (b : Bucket) (ev : SEvent) : Bucket :=
  { total_views := b.total_views + 1
    unique_users := insertIfAbsent b.unique_users ev.visitor_id
    path_counts := bump b.path_counts ev.path
    device_counts := optBump b.device_counts ev.device_type
    browser_counts := optBump b.browser_counts ev.browser
    referrer_counts := optBump b.referrer_counts ev.referrer }

/-- `incrementStatsForEvent site_id date … : DailyStats.updateOne(filter,
update, upsert)` — updates exactly the `(site_id, date)` bucket. -/
def incrementStatsForEvent (σ : StatsStore) (ev : SEvent) : StatsStore :=
  fun s d =>
    if s = ev.site_id ∧ d = ev.date then applyIncB (σ s d) ev else σ s d

/-- Effect of one emitted bulk upsert on the bucket its filter selects:
`$inc` of the merged counter payload and `$addToSet $each` of the member
list. -/
def applyOpB (b : Bucket) (op : OpEntry) : Bucket :=
  { total_views := b.total_views + op.total_views
    unique_users := insertAll b.unique_users op.users
    path_counts := op.pathCounts.foldl (fun m pr => bumpBy m pr.1 pr.2) b.path_counts
    device_counts := op.deviceCounts.foldl (fun m pr => bumpBy m pr.1 pr.2) b.device_counts
    browser_counts := op.browserCounts.foldl (fun m pr => bumpBy m pr.1 pr.2) b.browser_counts
    referrer_counts := op.referrerCounts.foldl (fun m pr => bumpBy m pr.1 pr.2) b.referrer_counts }

/-- Apply one bulk upsert operation to the store. -/
def applyOp (σ : StatsStore) (op : OpEntry) : StatsStore :=
  fun s d =>
    if s = op.site_id ∧ d = op.date then applyOpB (σ s d) op else σ s d

/-- Apply a list of bulk upsert operations in order
(`DailyStats.collection.bulkWrite`). -/
def applyOps (σ : StatsStore) (ops : List OpEntry) : StatsStore :=
  ops.foldl applyOp σ

/-- The daily-stats effect of one worker batch flush: build the grouped bulk
operations and apply them. -/
def flushBatch (σ : StatsStore) (events : List SEvent) : StatsStore :=
  applyOps σ (buildDailyStatsBulkOps events)

/-- An event's membership test for the `(s, d)` bucket. -/
def inBucket (s d : String) (e : SEvent) : Bool := e.site_id == s && e.date == d

/-- The events of a batch that fall into the `(s, d)` bucket. -/
def bucketEvents (evs : List SEvent) (s d : String) : List SEvent :=
  evs.filter (inBucket s d)

theorem findEnt_append_of_some {m : OpsMap} {k : String} {e : OpEntry}
    (h : findEnt m k = some e) (m' : OpsMap) : findEnt (m ++ m') k = some e := by
  induction m with
  | nil => simp [findEnt] at h
  | cons hd tl ih =>
    by_cases hh : hd.1 = k
    · simp [findEnt, hh] at h ⊢; exact h
    · simp [findEnt, hh] at h ⊢; exact ih h

theorem findEnt_append_of_none {m : OpsMap} {k : String}
    (h : findEnt m k = none) (m' : OpsMap) : findEnt (m ++ m') k = findEnt m' k := by
  induction m with
  | nil => simp
  | cons hd tl ih =>
    by_cases hh : hd.1 = k
    · simp [findEnt, hh] at h
    · simp [findEnt, hh] at h ⊢; exact ih h

theorem findEnt_mapAdd_ne (m : OpsMap) (ev : SEvent) (k k' : String)
    (h : k' ≠ k) :
    findEnt (m.map (fun p => if p.1 = k then (p.1, addEvent p.2 ev) else p)) k'
      = findEnt m k' := by
  induction m with
  | nil => simp [findEnt]
  | cons hd tl ih =>
    by_cases hk : hd.1 = k
    · have h1 : ¬ hd.1 = k' := fun hc => h (by rw [← hc, hk])
      have h2 : ¬ k = k' := fun hc => h hc.symm
      simp [findEnt, hk, h1, h2, ih]
    · by_cases hk' : hd.1 = k'
      · have h2 : ¬ k' = k := h
        simp [findEnt, hk, hk', h2, ih]
      · simp [findEnt, hk, hk', ih]

theorem findEnt_mapAdd_self (m : OpsMap) (ev : SEvent) (k : String) :
    findEnt (m.map (fun p => if p.1 = k then (p.1, addEvent p.2 ev) else p)) k
      = (findEnt m k).map (fun e => addEvent e ev) := by
  induction m with
  | nil => simp [findEnt]
  | cons hd tl ih =>
    by_cases hk : hd.1 = k <;> simp [findEnt, hk, ih]

/-- What the accumulated map holds at key `k`, as a function of what the seed
map held there and of the events with that key: the first such event creates
the entry, each of them is then folded in. -/
def seedFor : Option OpEntry → List SEvent → Option OpEntry
  | some e, l => some (l.foldl addEvent e)
  | none, [] => none
  | none, e0 :: l => some ((e0 :: l).foldl addEvent (emptyEntry e0.site_id e0.date))

theorem findEnt_foldl_mapUpd (evs : List SEvent) (m : OpsMap) (k : String) :
    findEnt (evs.foldl mapUpd m) k
      = seedFor (findEnt m k) (evs.filter (fun e => keyOf e == k)) := by
  induction evs generalizing m with
  | nil => cases h : findEnt m k <;> simp [seedFor, h]
  | cons ev rest ih =>
    show findEnt (rest.foldl mapUpd (mapUpd m ev)) k = _
    rw [ih]
    by_cases hk : keyOf ev = k
    · subst hk
      cases h : findEnt m (keyOf ev) with
      | some e =>
        have hm : mapUpd m ev
            = m.map (fun p => if p.1 = keyOf ev then (p.1, addEvent p.2 ev) else p) := by
          simp [mapUpd, h]
        rw [hm, findEnt_mapAdd_self, h]
        simp [seedFor, List.filter_cons]
      | none =>
        have hm : mapUpd m ev
            = m ++ [(keyOf ev, addEvent (emptyEntry ev.site_id ev.date) ev)] := by
          simp [mapUpd, h]
        rw [hm, findEnt_append_of_none h]
        simp [findEnt, seedFor, List.filter_cons]
    · have hfilter :
          (ev :: rest).filter (fun e => keyOf e == k)
            = rest.filter (fun e => keyOf e == k) := by
        simp [List.filter_cons, hk]
      rw [hfilter]
      have hpres : findEnt (mapUpd m ev) k = findEnt m k := by
        cases h : findEnt m (keyOf ev) with
        | some e =>
          have hm : mapUpd m ev
              = m.map (fun p => if p.1 = keyOf ev then (p.1, addEvent p.2 ev) else p) := by
            simp [mapUpd, h]
          rw [hm]
          exact findEnt_mapAdd_ne m ev (keyOf ev) k (fun hc => hk hc.symm)
        | none =>
          have hm : mapUpd m ev
              = m ++ [(keyOf ev, addEvent (emptyEntry ev.site_id ev.date) ev)] := by
            simp [mapUpd, h]
          rw [hm]
          cases hnone : findEnt m k with
          | some e2 => rw [findEnt_append_of_some hnone]
          | none =>
            rw [findEnt_append_of_none hnone]
            simp [findEnt, hk]
      rw [hpres]

theorem foldl_addEvent_site (l : List SEvent) (e : OpEntry) :
    (l.foldl addEvent e).site_id = e.site_id ∧ (l.foldl addEvent e).date = e.date := by
  induction l generalizing e with
  | nil => exact ⟨rfl, rfl⟩
  | cons ev rest ih =>
    simpa [addEvent] using ih (addEvent e ev)

theorem foldl_addEvent_total (l : List SEvent) (e : OpEntry) :
    (l.foldl addEvent e).total_views = e.total_views + l.length := by
  induction l generalizing e with
  | nil => rfl
  | cons ev rest ih =>
    show (rest.foldl addEvent (addEvent e ev)).total_views = _
    rw [ih]; simp [addEvent]; omega

theorem foldl_addEvent_path (l : List SEvent) (e : OpEntry) (p : String) :
    lookupD (l.foldl addEvent e).pathCounts p
      = lookupD e.pathCounts p + l.countP (fun x => x.path == p) := by
  induction l generalizing e with
  | nil => simp
  | cons ev rest ih =>
    show lookupD (rest.foldl addEvent (addEvent e ev)).pathCounts p = _
    rw [ih]
    simp only [addEvent, bump, lookupD_bumpBy, List.countP_cons]
    by_cases h : ev.path = p <;> simp [h, Ne.symm] <;> omega

theorem foldl_addEvent_path_sumKey (l : List SEvent) (e : OpEntry) (p : String) :
    sumKey (l.foldl addEvent e).pathCounts p
      = sumKey e.pathCounts p + l.countP (fun x => x.path == p) := by
  induction l generalizing e with
  | nil => simp
  | cons ev rest ih =>
    show sumKey (rest.foldl addEvent (addEvent e ev)).pathCounts p = _
    rw [ih]
    simp only [addEvent, bump, sumKey_bumpBy, List.countP_cons]
    by_cases h : ev.path = p <;> simp [h, Ne.symm] <;> omega

theorem foldl_addEvent_path_sumVals (l : List SEvent) (e : OpEntry) :
    sumVals (l.foldl addEvent e).pathCounts = sumVals e.pathCounts + l.length := by
  induction l generalizing e with
  | nil => rfl
  | cons ev rest ih =>
    show sumVals (rest.foldl addEvent (addEvent e ev)).pathCounts = _
    rw [ih]; simp [addEvent, bump, sumVals_bumpBy]; omega

theorem foldl_addEvent_device (l : List SEvent) (e : OpEntry) (v : String) :
    lookupD (l.foldl addEvent e).deviceCounts v
      = lookupD e.deviceCounts v + l.countP (fun x => truthyVal x.device_type == some v) := by
  induction l generalizing e with
  | nil => simp
  | cons ev rest ih =>
    show lookupD (rest.foldl addEvent (addEvent e ev)).deviceCounts v = _
    rw [ih]
    simp only [addEvent, lookupD_optBump, List.countP_cons]
    by_cases h : truthyVal ev.device_type = some v <;> simp [h] <;> omega

theorem foldl_addEvent_device_sumKey (l : List SEvent) (e : OpEntry) (v : String) :
    sumKey (l.foldl addEvent e).deviceCounts v
      = sumKey e.deviceCounts v + l.countP (fun x => truthyVal x.device_type == some v) := by
  induction l generalizing e with
  | nil => simp
  | cons ev rest ih =>
    show sumKey (rest.foldl addEvent (addEvent e ev)).deviceCounts v = _
    rw [ih]
    simp only [addEvent, sumKey_optBump, List.countP_cons]
    by_cases h : truthyVal ev.device_type = some v <;> simp [h] <;> omega

theorem foldl_addEvent_browser (l : List SEvent) (e : OpEntry) (v : String) :
    lookupD (l.foldl addEvent e).browserCounts v
      = lookupD e.browserCounts v + l.countP (fun x => truthyVal x.browser == some v) := by
  induction l generalizing e with
  | nil => simp
  | cons ev rest ih =>
    show lookupD (rest.foldl addEvent (addEvent e ev)).browserCounts v = _
    rw [ih]
    simp only [addEvent, lookupD_optBump, List.countP_cons]
    by_cases h : truthyVal ev.browser = some v <;> simp [h] <;> omega

theorem foldl_addEvent_browser_sumKey (l : List SEvent) (e : OpEntry) (v : String) :
    sumKey (l.foldl addEvent e).browserCounts v
      = sumKey e.browserCounts v + l.countP (fun x => truthyVal x.browser == some v) := by
  induction l generalizing e with
  | nil => simp
  | cons ev rest ih =>
    show sumKey (rest.foldl addEvent (addEvent e ev)).browserCounts v = _
    rw [ih]
    simp only [addEvent, sumKey_optBump, List.countP_cons]
    by_cases h : truthyVal ev.browser = some v <;> simp [h] <;> omega

theorem foldl_addEvent_referrer (l : List SEvent) (e : OpEntry) (v : String) :
    lookupD (l.foldl addEvent e).referrerCounts v
      = lookupD e.referrerCounts v + l.countP (fun x => truthyVal x.referrer == some v) := by
  induction l generalizing e with
  | nil => simp
  | cons ev rest ih =>
    show lookupD (rest.foldl addEvent (addEvent e ev)).referrerCounts v = _
    rw [ih]
    simp only [addEvent, lookupD_optBump, List.countP_cons]
    by_cases h : truthyVal ev.referrer = some v <;> simp [h] <;> omega

theorem foldl_addEvent_referrer_sumKey (l : List SEvent) (e : OpEntry) (v : String) :
    sumKey (l.foldl addEvent e).referrerCounts v
      = sumKey e.referrerCounts v + l.countP (fun x => truthyVal x.referrer == some v) := by
  induction l generalizing e with
  | nil => simp
  | cons ev rest ih =>
    show sumKey (rest.foldl addEvent (addEvent e ev)).referrerCounts v = _
    rw [ih]
    simp only [addEvent, sumKey_optBump, List.countP_cons]
    by_cases h : truthyVal ev.referrer = some v <;> simp [h] <;> omega

theorem foldl_addEvent_users (l : List SEvent) (e : OpEntry) :
    (l.foldl addEvent e).users = insertAll e.users (l.map (fun x => x.visitor_id)) := by
  induction l generalizing e with
  | nil => rfl
  | cons ev rest ih =>
    show (rest.foldl addEvent (addEvent e ev)).users = _
    rw [ih]; rfl

/-- The string key a `(site_id, date)` pair encodes to. -/
def encKey (pr : String × String) : String := pr.1 ++ "::" ++ pr.2

theorem addEvent_site (e : OpEntry) (ev : SEvent) :
    (addEvent e ev).site_id = e.site_id ∧ (addEvent e ev).date = e.date :=
  ⟨rfl, rfl⟩

theorem buildOpsMap_key_inv (evs : List SEvent) :
    ∀ pr ∈ buildOpsMap evs, pr.1 = encKey (pairOfOp pr.2) := by
  have main : ∀ (evs : List SEvent) (m : OpsMap),
      (∀ pr ∈ m, pr.1 = encKey (pairOfOp pr.2)) →
      ∀ pr ∈ evs.foldl mapUpd m, pr.1 = encKey (pairOfOp pr.2) := by
    intro evs
    induction evs with
    | nil => intro m hm; exact hm
    | cons ev rest ih =>
      intro m hm
      show ∀ pr ∈ rest.foldl mapUpd (mapUpd m ev), _
      refine ih (mapUpd m ev) ?_
      intro pr hpr
      cases h : findEnt m (keyOf ev) with
      | some e =>
        have hm2 : mapUpd m ev
            = m.map (fun p => if p.1 = keyOf ev then (p.1, addEvent p.2 ev) else p) := by
          simp [mapUpd, h]
        rw [hm2] at hpr
        obtain ⟨q, hq, hqe⟩ := List.mem_map.mp hpr
        by_cases hk : q.1 = keyOf ev
        · rw [if_pos hk] at hqe
          have := hm q hq
          rw [← hqe]
          simpa [pairOfOp, addEvent, hk] using this
        · rw [if_neg hk] at hqe
          rw [← hqe]; exact hm q hq
      | none =>
        have hm2 : mapUpd m ev
            = m ++ [(keyOf ev, addEvent (emptyEntry ev.site_id ev.date) ev)] := by
          simp [mapUpd, h]
        rw [hm2] at hpr
        rcases List.mem_append.mp hpr with hpr | hpr
        · exact hm pr hpr
        · rw [List.mem_singleton.mp hpr]
          simp [pairOfOp, addEvent, keyOf, encKey, emptyEntry]
  intro pr hpr
  exact main evs [] (by simp) pr hpr

theorem findEnt_eq_none_iff (m : OpsMap) (k : String) :
    findEnt m k = none ↔ k ∉ m.map Prod.fst := by
  induction m with
  | nil => simp [findEnt]
  | cons hd tl ih =>
    by_cases h : hd.1 = k
    · simp [findEnt, h]
    · simp only [findEnt, h, if_false, List.map_cons, List.mem_cons]
      rw [ih]
      constructor
      · intro hn hc
        rcases hc with hc | hc
        · exact h hc.symm
        · exact hn hc
      · intro hn hc
        exact hn (Or.inr hc)

theorem buildOpsMap_keys_nodup (evs : List SEvent) :
    ((buildOpsMap evs).map Prod.fst).Nodup := by
  have main : ∀ (evs : List SEvent) (m : OpsMap),
      (m.map Prod.fst).Nodup → ((evs.foldl mapUpd m).map Prod.fst).Nodup := by
    intro evs
    induction evs with
    | nil => intro m hm; exact hm
    | cons ev rest ih =>
      intro m hm
      show ((rest.foldl mapUpd (mapUpd m ev)).map Prod.fst).Nodup
      refine ih (mapUpd m ev) ?_
      cases h : findEnt m (keyOf ev) with
      | some e =>
        have hm2 : mapUpd m ev
            = m.map (fun p => if p.1 = keyOf ev then (p.1, addEvent p.2 ev) else p) := by
          simp [mapUpd, h]
        rw [hm2]
        have heq : (m.map (fun p => if p.1 = keyOf ev then (p.1, addEvent p.2 ev) else p)).map
            Prod.fst = m.map Prod.fst := by
          rw [List.map_map]
          refine List.map_congr_left ?_
          intro p _
          by_cases hk : p.1 = keyOf ev <;> simp [hk]
        rw [heq]; exact hm
      | none =>
        have hm2 : mapUpd m ev
            = m ++ [(keyOf ev, addEvent (emptyEntry ev.site_id ev.date) ev)] := by
          simp [mapUpd, h]
        rw [hm2, List.map_append]
        have hk : keyOf ev ∉ m.map Prod.fst := (findEnt_eq_none_iff m (keyOf ev)).mp h
        simp [List.nodup_append, hm, hk]
  exact main evs [] (by simp)

theorem findEnt_eq_some_of_mem {m : OpsMap} (hn : (m.map Prod.fst).Nodup)
    {k : String} {e : OpEntry} (h : (k, e) ∈ m) : findEnt m k = some e := by
  induction m with
  | nil => simp at h
  | cons hd tl ih =>
    simp only [List.map_cons, List.nodup_cons] at hn
    rcases List.mem_cons.mp h with heq | htl
    · rw [← heq]; simp [findEnt]
    · have hk : ¬ hd.1 = k := by
        intro hc
        exact hn.1 (by rw [hc]; exact List.mem_map_of_mem Prod.fst htl)
      simp [findEnt, hk]
      exact ih hn.2 htl

theorem mem_of_findEnt_eq_some {m : OpsMap} {k : String} {e : OpEntry}
    (h : findEnt m k = some e) : (k, e) ∈ m := by
  induction m with
  | nil => simp [findEnt] at h
  | cons hd tl ih =>
    by_cases hk : hd.1 = k
    · simp [findEnt, hk] at h
      rw [← hk, ← h]
      exact List.mem_cons_self hd tl
    · simp [findEnt, hk] at h
      exact List.mem_cons_of_mem hd (ih h)

theorem foldl_inc_at (evs : List SEvent) (σ : StatsStore) (s d : String) :
    (evs.foldl incrementStatsForEvent σ) s d
      = (bucketEvents evs s d).foldl applyIncB (σ s d) := by
  induction evs generalizing σ with
  | nil => rfl
  | cons ev rest ih =>
    show (rest.foldl incrementStatsForEvent (incrementStatsForEvent σ ev)) s d = _
    rw [ih]
    by_cases h : s = ev.site_id ∧ d = ev.date
    · have hb : inBucket s d ev = true := by
        simp [inBucket, h.1.symm, h.2.symm]
      have : bucketEvents (ev :: rest) s d = ev :: bucketEvents rest s d := by
        simp [bucketEvents, List.filter_cons, hb]
      rw [this]
      simp [incrementStatsForEvent, h]
    · have hb : inBucket s d ev = false := by
        simp only [inBucket, Bool.and_eq_false_iff]
        rcases not_and_or.mp h with h1 | h1
        · left; simp [beq_eq_false_iff_ne]; exact fun hc => h1 hc.symm
        · right; simp [beq_eq_false_iff_ne]; exact fun hc => h1 hc.symm
      have : bucketEvents (ev :: rest) s d = bucketEvents rest s d := by
        simp [bucketEvents, List.filter_cons, hb]
      rw [this]
      simp [incrementStatsForEvent, h]

theorem applyOps_at_none (ops : List OpEntry) (σ : StatsStore) (s d : String)
    (h : ∀ op ∈ ops, ¬(s = op.site_id ∧ d = op.date)) :
    applyOps σ ops s d = σ s d := by
  induction ops generalizing σ with
  | nil => rfl
  | cons op rest ih =>
    show applyOps (applyOp σ op) rest s d = _
    rw [ih _ (fun o ho => h o (List.mem_cons_of_mem op ho))]
    simp [applyOp, h op (List.mem_cons_self op rest)]

theorem applyOps_at_unique (ops : List OpEntry) (σ : StatsStore) (s d : String)
    (op : OpEntry) (hmem : op ∈ ops) (hsd : s = op.site_id ∧ d = op.date)
    (hnodup : (ops.map pairOfOp).Nodup) :
    applyOps σ ops s d = applyOpB (σ s d) op := by
  induction ops generalizing σ with
  | nil => simp at hmem
  | cons hd rest ih =>
    simp only [List.map_cons, List.nodup_cons] at hnodup
    rcases List.mem_cons.mp hmem with heq | htl
    · subst heq
      show applyOps (applyOp σ op) rest s d = _
      have hrest : ∀ o ∈ rest, ¬(s = o.site_id ∧ d = o.date) := by
        intro o ho hc
        refine hnodup.1 ?_
        have : pairOfOp o = pairOfOp op := by
          simp [pairOfOp, ← hc.1, ← hc.2, ← hsd.1, ← hsd.2]
        rw [← this]
        exact List.mem_map_of_mem pairOfOp ho
      rw [applyOps_at_none rest _ s d hrest]
      simp [applyOp, hsd]
    · show applyOps (applyOp σ hd) rest s d = _
      have hne : ¬(s = hd.site_id ∧ d = hd.date) := by
        intro hc
        refine hnodup.1 ?_
        have : pairOfOp hd = pairOfOp op := by
          simp [pairOfOp, ← hc.1, ← hc.2, ← hsd.1, ← hsd.2]
        rw [this]
        exact List.mem_map_of_mem pairOfOp htl
      have : applyOp σ hd s d = σ s d := by simp [applyOp, hne]
      rw [ih _ htl hnodup.2, this]

/-- Extensional equivalence of two bucket states: same `total_views`, same
count for every key of every dimension map, and the same set of
`unique_users`. -/
def BucketEquiv (b1 b2 : Bucket) : Prop :=
  b1.total_views = b2.total_views
  ∧ (∀ p, lookupD b1.path_counts p = lookupD b2.path_counts p)
  ∧ (∀ v, lookupD b1.device_counts v = lookupD b2.device_counts v)
  ∧ (∀ v, lookupD b1.browser_counts v = lookupD b2.browser_counts v)
  ∧ (∀ v, lookupD b1.referrer_counts v = lookupD b2.referrer_counts v)
  ∧ (∀ u, u ∈ b1.unique_users ↔ u ∈ b2.unique_users)

theorem bucketEquiv_refl (b : Bucket) : BucketEquiv b b :=
  ⟨rfl, fun _ => rfl, fun _ => rfl, fun _ => rfl, fun _ => rfl, fun _ => Iff.rfl⟩

theorem lookupD_bumpFold (cl : CMap) (b : CMap) (p : String) :
    lookupD (cl.foldl (fun m pr => bumpBy m pr.1 pr.2) b) p
      = lookupD b p + sumKey cl p := by
  induction cl generalizing b with
  | nil => simp [sumKey]
  | cons pr rest ih =>
    show lookupD (rest.foldl _ (bumpBy b pr.1 pr.2)) p = _
    rw [ih, lookupD_bumpBy]
    simp only [sumKey, List.map_cons, List.sum_cons]
    by_cases h : pr.1 = p <;> simp [h, Ne.symm] <;> omega

theorem sumVals_bumpFold (cl : CMap) (b : CMap) :
    sumVals (cl.foldl (fun m pr => bumpBy m pr.1 pr.2) b)
      = sumVals b + sumVals cl := by
  induction cl generalizing b with
  | nil => simp [sumVals]
  | cons pr rest ih =>
    show sumVals (rest.foldl _ (bumpBy b pr.1 pr.2)) = _
    rw [ih, sumVals_bumpBy]
    simp [sumVals]; omega

theorem foldl_applyIncB_total (l : List SEvent) (b : Bucket) :
    (l.foldl applyIncB b).total_views = b.total_views + l.length := by
  induction l generalizing b with
  | nil => rfl
  | cons ev rest ih =>
    show (rest.foldl applyIncB (applyIncB b ev)).total_views = _
    rw [ih]; simp [applyIncB]; omega

theorem foldl_applyIncB_path (l : List SEvent) (b : Bucket) (p : String) :
    lookupD (l.foldl applyIncB b).path_counts p
      = lookupD b.path_counts p + l.countP (fun x => x.path == p) := by
  induction l generalizing b with
  | nil => simp
  | cons ev rest ih =>
    show lookupD (rest.foldl applyIncB (applyIncB b ev)).path_counts p = _
    rw [ih]
    simp only [applyIncB, bump, lookupD_bumpBy, List.countP_cons]
    by_cases h : ev.path = p <;> simp [h, Ne.symm] <;> omega

theorem foldl_applyIncB_path_sumVals (l : List SEvent) (b : Bucket) :
    sumVals (l.foldl applyIncB b).path_counts = sumVals b.path_counts + l.length := by
  induction l generalizing b with
  | nil => rfl
  | cons ev rest ih =>
    show sumVals (rest.foldl applyIncB (applyIncB b ev)).path_counts = _
    rw [ih]; simp [applyIncB, bump, sumVals_bumpBy]; omega

theorem foldl_applyIncB_device (l : List SEvent) (b : Bucket) (v : String) :
    lookupD (l.foldl applyIncB b).device_counts v
      = lookupD b.device_counts v + l.countP (fun x => truthyVal x.device_type == some v) := by
  induction l generalizing b with
  | nil => simp
  | cons ev rest ih =>
    show lookupD (rest.foldl applyIncB (applyIncB b ev)).device_counts v = _
    rw [ih]
    simp only [applyIncB, lookupD_optBump, List.countP_cons]
    by_cases h : truthyVal ev.device_type = some v <;> simp [h] <;> omega

theorem foldl_applyIncB_browser (l : List SEvent) (b : Bucket) (v : String) :
    lookupD (l.foldl applyIncB b).browser_counts v
      = lookupD b.browser_counts v + l.countP (fun x => truthyVal x.browser == some v) := by
  induction l generalizing b with
  | nil => simp
  | cons ev rest ih =>
    show lookupD (rest.foldl applyIncB (applyIncB b ev)).browser_counts v = _
    rw [ih]
    simp only [applyIncB, lookupD_optBump, List.countP_cons]
    by_cases h : truthyVal ev.browser = some v <;> simp [h] <;> omega

theorem foldl_applyIncB_referrer (l : List SEvent) (b : Bucket) (v : String) :
    lookupD (l.foldl applyIncB b).referrer_counts v
      = lookupD b.referrer_counts v + l.countP (fun x => truthyVal x.referrer == some v) := by
  induction l generalizing b with
  | nil => simp
  | cons ev rest ih =>
    show lookupD (rest.foldl applyIncB (applyIncB b ev)).referrer_counts v = _
    rw [ih]
    simp only [applyIncB, lookupD_optBump, List.countP_cons]
    by_cases h : truthyVal ev.referrer = some v <;> simp [h] <;> omega

theorem foldl_applyIncB_users (l : List SEvent) (b : Bucket) (u : String) :
    u ∈ (l.foldl applyIncB b).unique_users
      ↔ u ∈ b.unique_users ∨ u ∈ l.map (fun x => x.visitor_id) := by
  induction l generalizing b with
  | nil => simp
  | cons ev rest ih =>
    show u ∈ (rest.foldl applyIncB (applyIncB b ev)).unique_users ↔ _
    rw [ih]
    simp only [applyIncB, mem_insertIfAbsent, List.map_cons, List.mem_cons]
    tauto

theorem mem_bulkOps_iff (evs : List SEvent) (op : OpEntry) :
    op ∈ buildDailyStatsBulkOps evs
      ↔ findEnt (buildOpsMap evs) (encKey (pairOfOp op)) = some op := by
  constructor
  · intro h
    obtain ⟨pr, hpr, hsnd⟩ := List.mem_map.mp h
    have hkey := buildOpsMap_key_inv evs pr hpr
    have hmem : (encKey (pairOfOp op), op) ∈ buildOpsMap evs := by
      have : pr = (encKey (pairOfOp op), op) := by
        rcases pr with ⟨k, e⟩
        simp only at hsnd
        subst hsnd
        simp only at hkey
        rw [hkey]
      rw [← this]; exact hpr
    exact findEnt_eq_some_of_mem (buildOpsMap_keys_nodup evs) hmem
  · intro h
    exact List.mem_map_of_mem Prod.snd (mem_of_findEnt_eq_some h)

theorem op_char (evs : List SEvent)
    (hinj : ∀ e1 ∈ evs, ∀ e2 ∈ evs,
      keyOf e1 = keyOf e2 → pairOfEvent e1 = pairOfEvent e2)
    {op : OpEntry} (hop : op ∈ buildDailyStatsBulkOps evs) :
    bucketEvents evs op.site_id op.date ≠ []
    ∧ op = (bucketEvents evs op.site_id op.date).foldl addEvent
        (emptyEntry op.site_id op.date) := by
  have hfe := (mem_bulkOps_iff evs op).mp hop
  unfold buildOpsMap at hfe
  rw [findEnt_foldl_mapUpd evs [] (encKey (pairOfOp op))] at hfe
  simp only [findEnt] at hfe
  cases hl : evs.filter (fun e => keyOf e == encKey (pairOfOp op)) with
  | nil => rw [hl] at hfe; simp [seedFor] at hfe
  | cons e0 l =>
    rw [hl] at hfe
    simp only [seedFor, Option.some.injEq] at hfe
    have he0f : e0 ∈ evs.filter (fun e => keyOf e == encKey (pairOfOp op)) := by
      rw [hl]; exact List.mem_cons_self e0 l
    have he0 : e0 ∈ evs ∧ keyOf e0 = encKey (pairOfOp op) := by
      have := List.mem_filter.mp he0f
      exact ⟨this.1, by simpa using this.2⟩
    have hsite : op.site_id = e0.site_id := by
      rw [← hfe]
      exact (foldl_addEvent_site (e0 :: l) (emptyEntry e0.site_id e0.date)).1
    have hdate : op.date = e0.date := by
      rw [← hfe]
      exact (foldl_addEvent_site (e0 :: l) (emptyEntry e0.site_id e0.date)).2
    have hfil : evs.filter (fun e => keyOf e == encKey (pairOfOp op))
        = bucketEvents evs op.site_id op.date := by
      unfold bucketEvents
      apply List.filter_congr
      intro e he
      by_cases hk : keyOf e = encKey (pairOfOp op)
      · have hpair := hinj e he e0 he0.1 (by rw [hk, he0.2])
        have h1 : e.site_id = op.site_id := by
          have := congrArg Prod.fst hpair
          simp [pairOfEvent] at this
          rw [this, ← hsite]
        have h2 : e.date = op.date := by
          have := congrArg Prod.snd hpair
          simp [pairOfEvent] at this
          rw [this, ← hdate]
        simp [hk, inBucket, h1, h2]
      · have hnb : inBucket op.site_id op.date e = false := by
          simp only [inBucket, Bool.and_eq_false_iff]
          by_contra hcon
          push_neg at hcon
          have h1 : e.site_id = op.site_id :=
            eq_of_beq (Bool.ne_false_iff.mp hcon.1)
          have h2 : e.date = op.date :=
            eq_of_beq (Bool.ne_false_iff.mp hcon.2)
          exact hk (by rw [keyOf, h1, h2, encKey, pairOfOp])
        simp [hk, hnb]
    constructor
    · rw [← hfil, hl]; exact List.cons_ne_nil e0 l
    · rw [← hfil, hl, hsite, hdate]; exact hfe.symm

theorem ops_pairs_nodup (evs : List SEvent) :
    ((buildDailyStatsBulkOps evs).map pairOfOp).Nodup := by
  have hkeys := buildOpsMap_keys_nodup evs
  have heq : (buildOpsMap evs).map Prod.fst
      = ((buildDailyStatsBulkOps evs).map pairOfOp).map encKey := by
    unfold buildDailyStatsBulkOps
    rw [List.map_map, List.map_map]
    exact List.map_congr_left (fun pr hpr => buildOpsMap_key_inv evs pr hpr)
  rw [heq] at hkeys
  exact hkeys.of_map

theorem ops_pairs_mem (evs : List SEvent)
    (hinj : ∀ e1 ∈ evs, ∀ e2 ∈ evs,
      keyOf e1 = keyOf e2 → pairOfEvent e1 = pairOfEvent e2)
    (pr : String × String) :
    pr ∈ (buildDailyStatsBulkOps evs).map pairOfOp
      ↔ pr ∈ evs.map pairOfEvent := by
  constructor
  · intro h
    obtain ⟨op, hop, hpr⟩ := List.mem_map.mp h
    obtain ⟨hne, _⟩ := op_char evs hinj hop
    cases hbe : bucketEvents evs op.site_id op.date with
    | nil => exact absurd hbe hne
    | cons e0 l =>
      have he0 : e0 ∈ bucketEvents evs op.site_id op.date := by
        rw [hbe]; exact List.mem_cons_self e0 l
      have := List.mem_filter.mp he0
      have hb : inBucket op.site_id op.date e0 = true := this.2
      simp only [inBucket, Bool.and_eq_true, beq_iff_eq] at hb
      refine List.mem_map.mpr ⟨e0, this.1, ?_⟩
      rw [← hpr]
      simp [pairOfEvent, pairOfOp, hb.1, hb.2]
  · intro h
    obtain ⟨e', he', hpr⟩ := List.mem_map.mp h
    have hfl : e' ∈ evs.filter (fun e => keyOf e == keyOf e') :=
      List.mem_filter.mpr ⟨he', by simp⟩
    cases hl : evs.filter (fun e => keyOf e == keyOf e') with
    | nil => rw [hl] at hfl; simp at hfl
    | cons e0 l =>
      have hfe : findEnt (buildOpsMap evs) (keyOf e')
          = some ((e0 :: l).foldl addEvent (emptyEntry e0.site_id e0.date)) := by
        unfold buildOpsMap
        rw [findEnt_foldl_mapUpd evs [] (keyOf e')]
        simp only [findEnt]
        rw [hl]
        rfl
      set entry := (e0 :: l).foldl addEvent (emptyEntry e0.site_id e0.date) with hentry
      have hmem : entry ∈ buildDailyStatsBulkOps evs :=
        List.mem_map_of_mem Prod.snd (mem_of_findEnt_eq_some hfe)
      have he0 : e0 ∈ evs ∧ keyOf e0 = keyOf e' := by
        have : e0 ∈ evs.filter (fun e => keyOf e == keyOf e') := by
          rw [hl]; exact List.mem_cons_self e0 l
        have h2 := List.mem_filter.mp this
        exact ⟨h2.1, by simpa using h2.2⟩
      have hpair := hinj e0 he0.1 e' he' he0.2
      refine List.mem_map.mpr ⟨entry, hmem, ?_⟩
      have hsite := (foldl_addEvent_site (e0 :: l) (emptyEntry e0.site_id e0.date)).1
      have hdate := (foldl_addEvent_site (e0 :: l) (emptyEntry e0.site_id e0.date)).2
      rw [← hpr, ← hpair]
      simp only [pairOfOp, pairOfEvent, ← hentry] at hsite hdate ⊢
      rw [hsite, hdate]
      rfl

theorem applyOpB_entry_equiv (b : Bucket) (s d : String) (l : List SEvent) :
    BucketEquiv (applyOpB b (l.foldl addEvent (emptyEntry s d)))
      (l.foldl applyIncB b) := by
  refine ⟨?_, ?_, ?_, ?_, ?_, ?_⟩
  · show b.total_views + (l.foldl addEvent (emptyEntry s d)).total_views = _
    rw [foldl_addEvent_total, foldl_applyIncB_total]
    simp [emptyEntry]
  · intro p
    show lookupD (((l.foldl addEvent (emptyEntry s d)).pathCounts).foldl
        (fun m pr => bumpBy m pr.1 pr.2) b.path_counts) p = _
    rw [lookupD_bumpFold, foldl_addEvent_path_sumKey, foldl_applyIncB_path]
    simp [emptyEntry, sumKey]
  · intro v
    show lookupD (((l.foldl addEvent (emptyEntry s d)).deviceCounts).foldl
        (fun m pr => bumpBy m pr.1 pr.2) b.device_counts) v = _
    rw [lookupD_bumpFold, foldl_addEvent_device_sumKey, foldl_applyIncB_device]
    simp [emptyEntry, sumKey]
  · intro v
    show lookupD (((l.foldl addEvent (emptyEntry s d)).browserCounts).foldl
        (fun m pr => bumpBy m pr.1 pr.2) b.browser_counts) v = _
    rw [lookupD_bumpFold, foldl_addEvent_browser_sumKey, foldl_applyIncB_browser]
    simp [emptyEntry, sumKey]
  · intro v
    show lookupD (((l.foldl addEvent (emptyEntry s d)).referrerCounts).foldl
        (fun m pr => bumpBy m pr.1 pr.2) b.referrer_counts) v = _
    rw [lookupD_bumpFold, foldl_addEvent_referrer_sumKey, foldl_applyIncB_referrer]
    simp [emptyEntry, sumKey]
  · intro u
    show u ∈ insertAll b.unique_users (l.foldl addEvent (emptyEntry s d)).users ↔ _
    rw [foldl_addEvent_users, mem_insertAll, foldl_applyIncB_users]
    rw [mem_insertAll]
    simp [emptyEntry]

/-- **C1** (amended): under the hypothesis that the string grouping key
`site_id ++ "::" ++ date` separates the `(site_id, date)` pairs occurring in
the batch (always true in the pipeline, where `date` is the fixed-width
`YYYY-MM-DD` output of `formatDate`), the grouped bulk update built by
`buildDailyStatsBulkOps` is equivalent to applying `incrementStatsForEvent`
once per event: there is exactly one upsert operation per distinct
`(site_id, date)` bucket of the batch; per bucket, the `total_views`
increment is the number of its events, the per-path and (for truthy values)
per-device/browser/referrer increments are the per-event counts, the
`$addToSet` member list holds exactly the bucket's visitor ids; and applying
the bulk operations to any store is bucket-equivalent to folding
`incrementStatsForEvent` over the batch. -/
theorem C1_bulkOps_refine_incrementStatsForEvent (evs : List SEvent)
    (hinj : ∀ e1 ∈ evs, ∀ e2 ∈ evs,
      keyOf e1 = keyOf e2 → pairOfEvent e1 = pairOfEvent e2) :
    ((buildDailyStatsBulkOps evs).map pairOfOp).Nodup
    ∧ (∀ pr, pr ∈ (buildDailyStatsBulkOps evs).map pairOfOp
        ↔ pr ∈ evs.map pairOfEvent)
    ∧ (∀ op ∈ buildDailyStatsBulkOps evs,
        op.total_views = (bucketEvents evs op.site_id op.date).length
        ∧ (∀ p, lookupD op.pathCounts p
            = (bucketEvents evs op.site_id op.date).countP (fun x => x.path == p))
        ∧ (∀ v, lookupD op.deviceCounts v
            = (bucketEvents evs op.site_id op.date).countP
                (fun x => truthyVal x.device_type == some v))
        ∧ (∀ v, lookupD op.browserCounts v
            = (bucketEvents evs op.site_id op.date).countP
                (fun x => truthyVal x.browser == some v))
        ∧ (∀ v, lookupD op.referrerCounts v
            = (bucketEvents evs op.site_id op.date).countP
                (fun x => truthyVal x.referrer == some v))
        ∧ (∀ u, u ∈ op.users
            ↔ u ∈ (bucketEvents evs op.site_id op.date).map (fun x => x.visitor_id)))
    ∧ (∀ σ : StatsStore, ∀ s d : String,
        BucketEquiv (flushBatch σ evs s d)
          ((evs.foldl incrementStatsForEvent σ) s d)) := by
  refine ⟨ops_pairs_nodup evs, ops_pairs_mem evs hinj, ?_, ?_⟩
  · intro op hop
    obtain ⟨hne, hchar⟩ := op_char evs hinj hop
    refine ⟨?_, ?_, ?_, ?_, ?_, ?_⟩
    · conv_lhs => rw [hchar]
      rw [foldl_addEvent_total]
      simp [emptyEntry]
    · intro p
      conv_lhs => rw [hchar]
      rw [foldl_addEvent_path]
      simp [emptyEntry, lookupD]
    · intro v
      conv_lhs => rw [hchar]
      rw [foldl_addEvent_device]
      simp [emptyEntry, lookupD]
    · intro v
      conv_lhs => rw [hchar]
      rw [foldl_addEvent_browser]
      simp [emptyEntry, lookupD]
    · intro v
      conv_lhs => rw [hchar]
      rw [foldl_addEvent_referrer]
      simp [emptyEntry, lookupD]
    · intro u
      conv_lhs => rw [hchar]
      rw [foldl_addEvent_users, mem_insertAll]
      simp [emptyEntry]
  · intro σ s d
    rw [foldl_inc_at]
    by_cases hsd : (s, d) ∈ (buildDailyStatsBulkOps evs).map pairOfOp
    · obtain ⟨op, hop, hpr⟩ := List.mem_map.mp hsd
      have hs : op.site_id = s := by
        have := congrArg Prod.fst hpr; simpa [pairOfOp] using this
      have hd2 : op.date = d := by
        have := congrArg Prod.snd hpr; simpa [pairOfOp] using this
      have h1 : flushBatch σ evs s d = applyOpB (σ s d) op :=
        applyOps_at_unique (buildDailyStatsBulkOps evs) σ s d op hop
          ⟨hs.symm, hd2.symm⟩ (ops_pairs_nodup evs)
      obtain ⟨_, hchar⟩ := op_char evs hinj hop
      rw [hs, hd2] at hchar
      rw [h1, hchar]
      exact applyOpB_entry_equiv (σ s d) s d (bucketEvents evs s d)
    · have h1 : flushBatch σ evs s d = σ s d := by
        refine applyOps_at_none (buildDailyStatsBulkOps evs) σ s d ?_
        intro op hop hc
        refine hsd (List.mem_map.mpr ⟨op, hop, ?_⟩)
        simp [pairOfOp, ← hc.1, ← hc.2]
      have h2 : bucketEvents evs s d = [] := by
        cases hbe : bucketEvents evs s d with
        | nil => rfl
        | cons e0 l =>
          exfalso
          have he0 : e0 ∈ bucketEvents evs s d := by
            rw [hbe]; exact List.mem_cons_self e0 l
          have hm := List.mem_filter.mp he0
          have hb : inBucket s d e0 = true := hm.2
          simp only [inBucket, Bool.and_eq_true, beq_iff_eq] at hb
          have : (s, d) ∈ evs.map pairOfEvent :=
            List.mem_map.mpr ⟨e0, hm.1, by simp [pairOfEvent, hb.1, hb.2]⟩
          exact hsd ((ops_pairs_mem evs hinj (s, d)).mpr this)
      rw [h1, h2]
      exact bucketEquiv_refl _

/-- A concrete three-event batch (two buckets of one site) used to witness
the hypotheses of the C1 theorem. -/
def wBatch : List SEvent :=
  [⟨"s1", "2024-01-01", "visitor-A", "/home", some "desktop", none, none⟩,
   ⟨"s1", "2024-01-01", "visitor-B", "/home", none, none, none⟩,
   ⟨"s1", "2024-01-02", "visitor-A", "/about", none, some "firefox", none⟩]

/-- Witness for C1: the key-separation hypothesis holds for a concrete batch
(as it does for every batch whose dates are fixed-width `YYYY-MM-DD`
strings), and the conclusion follows by the theorem. -/
theorem C1_bulkOps_refine_incrementStatsForEvent_witness :
    (∀ e1 ∈ wBatch, ∀ e2 ∈ wBatch,
      keyOf e1 = keyOf e2 → pairOfEvent e1 = pairOfEvent e2)
    ∧ (((buildDailyStatsBulkOps wBatch).map pairOfOp).Nodup
      ∧ (∀ pr, pr ∈ (buildDailyStatsBulkOps wBatch).map pairOfOp
          ↔ pr ∈ wBatch.map pairOfEvent)
      ∧ (∀ op ∈ buildDailyStatsBulkOps wBatch,
          op.total_views = (bucketEvents wBatch op.site_id op.date).length
          ∧ (∀ p, lookupD op.pathCounts p
              = (bucketEvents wBatch op.site_id op.date).countP (fun x => x.path == p))
          ∧ (∀ v, lookupD op.deviceCounts v
              = (bucketEvents wBatch op.site_id op.date).countP
                  (fun x => truthyVal x.device_type == some v))
          ∧ (∀ v, lookupD op.browserCounts v
              = (bucketEvents wBatch op.site_id op.date).countP
                  (fun x => truthyVal x.browser == some v))
          ∧ (∀ v, lookupD op.referrerCounts v
              = (bucketEvents wBatch op.site_id op.date).countP
                  (fun x => truthyVal x.referrer == some v))
          ∧ (∀ u, u ∈ op.users
              ↔ u ∈ (bucketEvents wBatch op.site_id op.date).map (fun x => x.visitor_id)))
      ∧ (∀ σ : StatsStore, ∀ s d : String,
          BucketEquiv (flushBatch σ wBatch s d)
            ((wBatch.foldl incrementStatsForEvent σ) s d))) :=
  ⟨by decide, C1_bulkOps_refine_incrementStatsForEvent wBatch (by decide)⟩

/-- Counterexample to C1 as stated: because the grouping key is the string
concatenation `site_id ++ "::" ++ date`, the two events
`(site_id = "a::b", date = "c")` and `(site_id = "a", date = "b::c")` —
two distinct `(site_id, date)` buckets — collide on the key `"a::b::c"`,
so the builder emits a single upsert operation instead of one per distinct
bucket, and no emitted operation targets the bucket `("a", "b::c")`. -/
theorem C1_counterexample_key_collision :
    pairOfEvent ⟨"a::b", "c", "v", "/p", none, none, none⟩
      ≠ pairOfEvent ⟨"a", "b::c", "v", "/p", none, none, none⟩
    ∧ (buildDailyStatsBulkOps
        [⟨"a::b", "c", "v", "/p", none, none, none⟩,
         ⟨"a", "b::c", "v", "/p", none, none, none⟩]).length = 1
    ∧ ("a", "b::c") ∉ (buildDailyStatsBulkOps
        [⟨"a::b", "c", "v", "/p", none, none, none⟩,
         ⟨"a", "b::c", "v", "/p", none, none, none⟩]).map pairOfOp := by
  decide

theorem op_sum_inv (evs : List SEvent) {op : OpEntry}
    (hop : op ∈ buildDailyStatsBulkOps evs) :
    sumVals op.pathCounts = op.total_views := by
  have hfe := (mem_bulkOps_iff evs op).mp hop
  unfold buildOpsMap at hfe
  rw [findEnt_foldl_mapUpd evs [] (encKey (pairOfOp op))] at hfe
  simp only [findEnt] at hfe
  cases hl : evs.filter (fun e => keyOf e == encKey (pairOfOp op)) with
  | nil => rw [hl] at hfe; simp [seedFor] at hfe
  | cons e0 l =>
    rw [hl] at hfe
    simp only [seedFor, Option.some.injEq] at hfe
    rw [← hfe, foldl_addEvent_path_sumVals, foldl_addEvent_total]
    simp [emptyEntry, sumVals]

theorem applyOps_inv (ops : List OpEntry) (σ : StatsStore)
    (hops : ∀ op ∈ ops, sumVals op.pathCounts = op.total_views)
    (h : ∀ s d, (σ s d).total_views = sumVals (σ s d).path_counts) :
    ∀ s d, ((applyOps σ ops) s d).total_views
      = sumVals ((applyOps σ ops) s d).path_counts := by
  induction ops generalizing σ with
  | nil => exact h
  | cons op rest ih =>
    refine ih (applyOp σ op) (fun o ho => hops o (List.mem_cons_of_mem _ ho)) ?_
    intro s d
    by_cases hc : s = op.site_id ∧ d = op.date
    · simp only [applyOp, hc, and_self, if_true, ite_true, applyOpB]
      rw [sumVals_bumpFold, h op.site_id op.date,
        hops op (List.mem_cons_self op rest)]
    · simp [applyOp, hc, h s d]

theorem flushBatch_inv (σ : StatsStore) (evs : List SEvent)
    (h : ∀ s d, (σ s d).total_views = sumVals (σ s d).path_counts) :
    ∀ s d, ((flushBatch σ evs) s d).total_views
      = sumVals ((flushBatch σ evs) s d).path_counts :=
  applyOps_inv (buildDailyStatsBulkOps evs) σ
    (fun op hop => op_sum_inv evs hop) h

/-- **C2**: for every site and date, starting from the initial bucket state
and applying any sequence of events partitioned into batches in any way via
the bulk aggregation, `total_views` equals the sum of all `path_counts`
values for that bucket; moreover each single-event update
(`incrementStatsForEvent`) adds exactly `1` to `total_views` and exactly `1`
to exactly one path's count in the same atomic update, leaving every other
bucket untouched. -/
theorem batches_inv (batches : List (List SEvent)) :
    ∀ s d, ((batches.foldl flushBatch emptyStore) s d).total_views
      = sumVals ((batches.foldl flushBatch emptyStore) s d).path_counts := by
  have main : ∀ (bs : List (List SEvent)) (σ : StatsStore),
      (∀ s d, (σ s d).total_views = sumVals (σ s d).path_counts) →
      ∀ s d, ((bs.foldl flushBatch σ) s d).total_views
        = sumVals ((bs.foldl flushBatch σ) s d).path_counts := by
    intro bs
    induction bs with
    | nil => intro σ h; exact h
    | cons b rest ih => intro σ h; exact ih (flushBatch σ b) (flushBatch_inv σ b h)
  exact main batches emptyStore (by intro s d; simp [emptyStore, emptyBucket, sumVals])

theorem C2_total_views_eq_sum_path_counts (batches : List (List SEvent))
    (s d : String) :
    ((batches.foldl flushBatch emptyStore) s d).total_views
      = sumVals ((batches.foldl flushBatch emptyStore) s d).path_counts
    ∧ (∀ (σ : StatsStore) (ev : SEvent),
        ((incrementStatsForEvent σ ev) ev.site_id ev.date).total_views
          = (σ ev.site_id ev.date).total_views + 1
        ∧ sumVals ((incrementStatsForEvent σ ev) ev.site_id ev.date).path_counts
          = sumVals (σ ev.site_id ev.date).path_counts + 1
        ∧ lookupD ((incrementStatsForEvent σ ev) ev.site_id ev.date).path_counts ev.path
          = lookupD (σ ev.site_id ev.date).path_counts ev.path + 1
        ∧ (∀ p, p ≠ ev.path →
            lookupD ((incrementStatsForEvent σ ev) ev.site_id ev.date).path_counts p
              = lookupD (σ ev.site_id ev.date).path_counts p)
        ∧ (∀ s' d', ¬(s' = ev.site_id ∧ d' = ev.date) →
            (incrementStatsForEvent σ ev) s' d' = σ s' d')) := by
  constructor
  · exact batches_inv batches s d
  · intro σ ev
    refine ⟨?_, ?_, ?_, ?_, ?_⟩
    · simp [incrementStatsForEvent, applyIncB]
    · simp [incrementStatsForEvent, applyIncB, bump, sumVals_bumpBy]
    · simp [incrementStatsForEvent, applyIncB, bump, lookupD_bumpBy]
    · intro p hp
      simp [incrementStatsForEvent, applyIncB, bump, lookupD_bumpBy, hp]
    · intro s' d' hne
      simp [incrementStatsForEvent, hne]

/-- Witness for C2 at a concrete batch partition: the bucket of the witness
batch holds two views and its path counts sum to two. -/
theorem C2_total_views_eq_sum_path_counts_witness :
    (([wBatch].foldl flushBatch emptyStore) "s1" "2024-01-01").total_views = 2
    ∧ sumVals (([wBatch].foldl flushBatch emptyStore) "s1" "2024-01-01").path_counts = 2
    ∧ ((([wBatch].foldl flushBatch emptyStore) "s1" "2024-01-01").total_views
        = sumVals (([wBatch].foldl flushBatch emptyStore) "s1" "2024-01-01").path_counts
      ∧ (∀ (σ : StatsStore) (ev : SEvent),
          ((incrementStatsForEvent σ ev) ev.site_id ev.date).total_views
            = (σ ev.site_id ev.date).total_views + 1
          ∧ sumVals ((incrementStatsForEvent σ ev) ev.site_id ev.date).path_counts
            = sumVals (σ ev.site_id ev.date).path_counts + 1
          ∧ lookupD ((incrementStatsForEvent σ ev) ev.site_id ev.date).path_counts ev.path
            = lookupD (σ ev.site_id ev.date).path_counts ev.path + 1
          ∧ (∀ p, p ≠ ev.path →
              lookupD ((incrementStatsForEvent σ ev) ev.site_id ev.date).path_counts p
                = lookupD (σ ev.site_id ev.date).path_counts p)
          ∧ (∀ s' d', ¬(s' = ev.site_id ∧ d' = ev.date) →
              (incrementStatsForEvent σ ev) s' d' = σ s' d'))) :=
  ⟨by decide, by decide, C2_total_views_eq_sum_path_counts [wBatch] "s1" "2024-01-01"⟩

theorem applyOps_users_mono (ops : List OpEntry) (σ : StatsStore) (s d : String) :
    (σ s d).unique_users.length ≤ ((applyOps σ ops) s d).unique_users.length
    ∧ ∀ u, u ∈ (σ s d).unique_users → u ∈ ((applyOps σ ops) s d).unique_users := by
  induction ops generalizing σ with
  | nil => exact ⟨le_refl _, fun _ h => h⟩
  | cons op rest ih =>
    have step_len : (σ s d).unique_users.length
        ≤ ((applyOp σ op) s d).unique_users.length := by
      by_cases hc : s = op.site_id ∧ d = op.date
      · simp only [applyOp, hc, and_self, if_true, ite_true, applyOpB]
        exact length_insertAll _ _
      · simp [applyOp, hc]
    have step_mem : ∀ u, u ∈ (σ s d).unique_users
        → u ∈ ((applyOp σ op) s d).unique_users := by
      intro u hu
      by_cases hc : s = op.site_id ∧ d = op.date
      · rw [hc.1, hc.2] at hu
        simp only [applyOp, hc, and_self, if_true, ite_true, applyOpB]
        exact (mem_insertAll _ _ u).mpr (Or.inl hu)
      · simpa [applyOp, hc] using hu
    obtain ⟨ihl, ihm⟩ := ih (applyOp σ op)
    exact ⟨le_trans step_len ihl, fun u hu => ihm u (step_mem u hu)⟩

/-- **C7**: for every bucket, the `unique_users` set never shrinks — neither
under a single-event update (`incrementStatsForEvent`) nor under a batched
bulk update (`flushBatch`): its members are preserved and its size is
non-decreasing; and applying an event whose visitor id is already in its
bucket's set leaves the stored list (hence the set and its size) unchanged. -/
theorem C7_unique_users_monotone (σ : StatsStore) (ev : SEvent)
    (evs : List SEvent) (s d : String) :
    (σ s d).unique_users.length
      ≤ ((incrementStatsForEvent σ ev) s d).unique_users.length
    ∧ (∀ u, u ∈ (σ s d).unique_users
        → u ∈ ((incrementStatsForEvent σ ev) s d).unique_users)
    ∧ (σ s d).unique_users.length ≤ ((flushBatch σ evs) s d).unique_users.length
    ∧ (∀ u, u ∈ (σ s d).unique_users → u ∈ ((flushBatch σ evs) s d).unique_users)
    ∧ (ev.visitor_id ∈ (σ ev.site_id ev.date).unique_users →
        ((incrementStatsForEvent σ ev) ev.site_id ev.date).unique_users
          = (σ ev.site_id ev.date).unique_users) := by
  refine ⟨?_, ?_, ?_, ?_, ?_⟩
  · by_cases hc : s = ev.site_id ∧ d = ev.date
    · simp only [incrementStatsForEvent, hc, and_self, if_true, ite_true, applyIncB]
      exact length_insertIfAbsent _ _
    · simp [incrementStatsForEvent, hc]
  · intro u hu
    by_cases hc : s = ev.site_id ∧ d = ev.date
    · rw [hc.1, hc.2] at hu
      simp only [incrementStatsForEvent, hc, and_self, if_true, ite_true, applyIncB]
      exact (mem_insertIfAbsent _ _ u).mpr (Or.inl hu)
    · simpa [incrementStatsForEvent, hc] using hu
  · exact (applyOps_users_mono (buildDailyStatsBulkOps evs) σ s d).1
  · exact (applyOps_users_mono (buildDailyStatsBulkOps evs) σ s d).2
  · intro hmem
    simp only [incrementStatsForEvent, and_self, if_true, ite_true, applyIncB]
    exact insertIfAbsent_of_mem hmem

/-- A concrete store with one seen visitor, for the C7 witness. -/
def wStore : StatsStore := fun s d =>
  if s = "s1" ∧ d = "2024-01-01"
  then ⟨1, ["visitor-A"], [("/home", 1)], [], [], []⟩
  else emptyBucket

/-- Witness for C7: a concrete store in which the re-applied visitor id is
already present, so the idempotence hypothesis is discharged concretely. -/
theorem C7_unique_users_monotone_witness :
    "visitor-A" ∈ (wStore "s1" "2024-01-01").unique_users
    ∧ ((wStore "s1" "2024-01-01").unique_users.length
        ≤ ((incrementStatsForEvent wStore
            ⟨"s1", "2024-01-01", "visitor-A", "/home", none, none, none⟩)
            "s1" "2024-01-01").unique_users.length
      ∧ (∀ u, u ∈ (wStore "s1" "2024-01-01").unique_users
          → u ∈ ((incrementStatsForEvent wStore
              ⟨"s1", "2024-01-01", "visitor-A", "/home", none, none, none⟩)
              "s1" "2024-01-01").unique_users)
      ∧ (wStore "s1" "2024-01-01").unique_users.length
          ≤ ((flushBatch wStore wBatch) "s1" "2024-01-01").unique_users.length
      ∧ (∀ u, u ∈ (wStore "s1" "2024-01-01").unique_users
          → u ∈ ((flushBatch wStore wBatch) "s1" "2024-01-01").unique_users)
      ∧ (("visitor-A" : String)
            ∈ (wStore "s1" "2024-01-01").unique_users →
          ((incrementStatsForEvent wStore
              ⟨"s1", "2024-01-01", "visitor-A", "/home", none, none, none⟩)
              "s1" "2024-01-01").unique_users
            = (wStore "s1" "2024-01-01").unique_users)) :=
  ⟨by decide,
   C7_unique_users_monotone wStore
     ⟨"s1", "2024-01-01", "visitor-A", "/home", none, none, none⟩
     wBatch "s1" "2024-01-01"⟩

/-- One stored `sessions` row. Timestamps are integers (milliseconds since
epoch, the value of `Date.getTime()`). The code stores the visitor identity
in the row's `user_id` field. -/
structure SessRec where
  site_id : String
  user_id : String
  started_at : Int
  last_activity : Int
  page_count : Nat
  referrer : Option String
  user_agent : Option String
  deriving DecidableEq, Repr

/-- The `sessions` collection, keyed by the unique `session_id`. -/
abbrev SessTable := String → Option SessRec

def emptySessions : SessTable := fun _ => none

/-- `updateSession(session_id, site_id, visitor_id, referrer, user_agent)`,
with the impure `const now = new Date()` made an explicit `now` parameter.
Upsert semantics of the Mongo update: on an existing row, `$set` overwrites
`site_id`, `user_id`, `last_activity = now` and (only for truthy values,
since `referrer || undefined` strips the key) `referrer`/`user_agent`, and
`$inc` adds 1 to `page_count`; on a missing row, the insert gets the filter
key, the `$set` fields, `$setOnInsert started_at = now`, and `page_count = 1`
from `$inc` on the absent field. -/
def updateSession (tbl : SessTable) (session_id site_id visitor_id : String)
    (referrer user_agent : Option String) (now : Int) : SessTable :=
  fun k =>
    if k = session_id then
      match tbl session_id with
      | some r => some { r with
          site_id := site_id
          user_id := visitor_id
          last_activity := now
          page_count := r.page_count + 1
          referrer := match truthyVal referrer with
            | some s => some s
            | none => r.referrer
          user_agent := match truthyVal user_agent with
            | some s => some s
            | none => r.user_agent }
      | none => some {
          site_id := site_id
          user_id := visitor_id
          started_at := now
          last_activity := now
          page_count := 1
          referrer := truthyVal referrer
          user_agent := truthyVal user_agent }
    else tbl k

/-- One event as buffered by the worker (`AnalyticsEvent` payload fields used
by `flushBuffer`); `timestamp` in ms. -/
structure WEvent where
  site_id : String
  event_type : String
  path : String
  user_id : String
  timestamp : Int
  session_id : Option String := none
  visitor_id : Option String := none
  device_type : Option String := none
  browser : Option String := none
  os : Option String := none
  referrer : Option String := none
  user_agent : Option String := none
  deriving DecidableEq, Repr

/-- JS `a || b` on an optional string field: falls back when the field is
`undefined` or `""` (both falsy). -/
def fallback (o : Option String) (y : String) : String :=
  match o with
  | some s => if s = "" then y else s
  | none => y

/-- The session touch `flushBuffer` performs for one buffered event:
`updateSession(b.data.session_id || b.data.user_id, b.data.site_id,
b.data.visitor_id || b.data.user_id, b.data.referrer, b.data.user_agent)`.
The event's `timestamp` is not passed: `updateSession` stamps the touch
with its own wall-clock `now`. -/
def touchFromEvent (tbl : SessTable) (ev : WEvent) (now : Int) : SessTable :=
  updateSession tbl (fallback ev.session_id ev.user_id) ev.site_id
    (fallback ev.visitor_id ev.user_id) ev.referrer ev.user_agent now

/-- A concrete buffered event carrying timestamp 5, processed at wall-clock
time 7, for the C3 counterexample. -/
def cEventTs5 : WEvent :=
  { site_id := "s1", event_type := "pageview", path := "/home",
    user_id := "u1", timestamp := 5 }

/-- Counterexample to C3 as stated: the first touch of a fresh session for an
event whose `timestamp` is 5, processed at wall-clock time 7, stores
`started_at = 7` (the processing time), not the event's timestamp — because
`flushBuffer` never passes the event's `timestamp` to `updateSession`, which
uses `new Date()` for both `started_at` and `last_activity`. -/
theorem C3_counterexample_touch_ignores_event_timestamp :
    (touchFromEvent emptySessions cEventTs5 7) "u1"
      = some { site_id := "s1", user_id := "u1", started_at := 7,
               last_activity := 7, page_count := 1,
               referrer := none, user_agent := none }
    ∧ (7 : Int) ≠ cEventTs5.timestamp := by
  decide

/-- **C3** (amended): session touch timestamps come from the processing-time
wall clock (`new Date()` inside `updateSession`), not from the event: on the
first touch of a session id, `started_at` and `last_activity` are both set
to the touch's `now` and `page_count` to 1; on every subsequent touch,
`last_activity` is overwritten with that touch's `now` unconditionally (even
if `now` is earlier than the stored value), `started_at` is unchanged and
`page_count` is incremented by 1; rows of other session ids are untouched. -/
theorem C3_touch_uses_processing_time (tbl : SessTable)
    (sid site visitor : String) (ref ua : Option String) (now : Int) :
    (tbl sid = none →
      ∃ r, (updateSession tbl sid site visitor ref ua now) sid = some r
        ∧ r.started_at = now ∧ r.last_activity = now ∧ r.page_count = 1)
    ∧ (∀ r0, tbl sid = some r0 →
      ∃ r, (updateSession tbl sid site visitor ref ua now) sid = some r
        ∧ r.started_at = r0.started_at ∧ r.last_activity = now
        ∧ r.page_count = r0.page_count + 1)
    ∧ (∀ k, k ≠ sid →
        (updateSession tbl sid site visitor ref ua now) k = tbl k) := by
  refine ⟨?_, ?_, ?_⟩
  · intro h
    exact ⟨⟨site, visitor, now, now, 1, truthyVal ref, truthyVal ua⟩,
      by simp [updateSession, h], rfl, rfl, rfl⟩
  · intro r0 h
    have hupd : (updateSession tbl sid site visitor ref ua now) sid
        = some ⟨site, visitor, r0.started_at, now, r0.page_count + 1,
            (match truthyVal ref with | some s => some s | none => r0.referrer),
            (match truthyVal ua with | some s => some s | none => r0.user_agent)⟩ := by
      simp [updateSession, h]
    exact ⟨_, hupd, rfl, rfl, rfl⟩
  · intro k hk
    simp [updateSession, hk]

/-- A stored session row with `last_activity = 10`, for the C3 witness. -/
def wSessTbl : SessTable := fun k =>
  if k = "sess-1"
  then some { site_id := "s1", user_id := "u1", started_at := 3,
              last_activity := 10, page_count := 2,
              referrer := none, user_agent := none }
  else none

/-- Witness for C3 (amended): a fresh session id is created at the touch's
`now`, and a later touch at `now = 4` — earlier than the stored
`last_activity = 10` — still overwrites it. -/
theorem C3_touch_uses_processing_time_witness :
    emptySessions "sess-0" = none
    ∧ (∃ r, (updateSession emptySessions "sess-0" "s1" "v1" none none 7)
          "sess-0" = some r
        ∧ r.started_at = 7 ∧ r.last_activity = 7 ∧ r.page_count = 1)
    ∧ wSessTbl "sess-1" = some ⟨"s1", "u1", 3, 10, 2, none, none⟩
    ∧ (∃ r, (updateSession wSessTbl "sess-1" "s1" "v1" none none 4)
          "sess-1" = some r
        ∧ r.started_at = 3 ∧ r.last_activity = 4 ∧ r.page_count = 3) :=
  ⟨rfl,
   (C3_touch_uses_processing_time emptySessions "sess-0" "s1" "v1"
      none none 7).1 rfl,
   rfl,
   by
    obtain ⟨r, hr, h1, h2, h3⟩ :=
      (C3_touch_uses_processing_time wSessTbl "sess-1" "s1" "v1"
        none none 4).2.1 ⟨"s1", "u1", 3, 10, 2, none, none⟩ rfl
    exact ⟨r, hr, h1, h2, h3⟩⟩

/-- One session touch as issued by the worker: the per-touch arguments of
`updateSession` together with the wall-clock instant `now` at which the
touch runs. -/
structure Touch where
  site_id : String
  visitor_id : String
  referrer : Option String := none
  user_agent : Option String := none
  now : Int
  deriving DecidableEq, Repr

/-- Apply a sequence of touches to one session id, in order. -/
def applyTouches (tbl : SessTable) (sid : String) (ts : List Touch) : SessTable :=
  ts.foldl (fun t tc =>
    updateSession t sid tc.site_id tc.visitor_id tc.referrer tc.user_agent tc.now) tbl

theorem applyTouches_existing (ts : List Touch) (tbl : SessTable) (sid : String)
    (r0 : SessRec) (h0 : tbl sid = some r0)
    (hle : ∀ t ∈ ts, r0.started_at ≤ t.now)
    (hlast : r0.started_at ≤ r0.last_activity) :
    ∃ r, (applyTouches tbl sid ts) sid = some r
      ∧ r.started_at = r0.started_at
      ∧ r.started_at ≤ r.last_activity
      ∧ r.page_count = r0.page_count + ts.length := by
  induction ts generalizing tbl r0 with
  | nil => exact ⟨r0, h0, rfl, hlast, rfl⟩
  | cons t rest ih =>
    show ∃ r, (applyTouches
        (updateSession tbl sid t.site_id t.visitor_id t.referrer t.user_agent t.now)
        sid rest) sid = some r ∧ _
    have h1 : (updateSession tbl sid t.site_id t.visitor_id t.referrer
        t.user_agent t.now) sid
        = some ⟨t.site_id, t.visitor_id, r0.started_at, t.now, r0.page_count + 1,
            (match truthyVal t.referrer with | some s => some s | none => r0.referrer),
            (match truthyVal t.user_agent with | some s => some s | none => r0.user_agent)⟩ := by
      simp [updateSession, h0]
    obtain ⟨r, hr, hs, hsl, hpc⟩ := ih _ _ h1
      (fun t' ht' => hle t' (List.mem_cons_of_mem t ht'))
      (hle t (List.mem_cons_self t rest))
    exact ⟨r, hr, hs, hsl, by rw [hpc]; simp; omega⟩

/-- **C6**: for every session, after any non-empty sequence of touches whose
wall-clock instants are non-decreasing (successive `new Date()` calls in one
process), the stored row satisfies `started_at ≤ last_activity`,
`page_count ≥ 1`, and `page_count` equals exactly the number of touches
applied to that session id. -/
theorem C6_session_timing_invariant (sid : String) (ts : List Touch)
    (hne : ts ≠ [])
    (hmono : ts.Pairwise (fun a b => a.now ≤ b.now)) :
    ∃ r, (applyTouches emptySessions sid ts) sid = some r
      ∧ r.started_at ≤ r.last_activity
      ∧ r.page_count = ts.length
      ∧ 1 ≤ r.page_count := by
  cases ts with
  | nil => exact absurd rfl hne
  | cons t0 rest =>
    have h1 : (updateSession emptySessions sid t0.site_id t0.visitor_id
        t0.referrer t0.user_agent t0.now) sid
        = some ⟨t0.site_id, t0.visitor_id, t0.now, t0.now, 1,
            truthyVal t0.referrer, truthyVal t0.user_agent⟩ := by
      simp [updateSession, emptySessions]
    have hle : ∀ t ∈ rest, t0.now ≤ t.now :=
      fun t ht => (List.pairwise_cons.mp hmono).1 t ht
    obtain ⟨r, hr, hs, hsl, hpc⟩ :=
      applyTouches_existing rest _ sid _ h1 hle (le_refl t0.now)
    refine ⟨r, hr, ?_, ?_, ?_⟩
    · exact hsl
    · rw [hpc]; simp [Nat.add_comm]
    · rw [hpc]; simp

/-- Witness for C6: two touches at instants 5 then 9 yield a row with
`started_at ≤ last_activity` and `page_count = 2`. -/
theorem C6_session_timing_invariant_witness :
    ([⟨"s1", "v1", none, none, 5⟩, ⟨"s1", "v1", none, none, 9⟩] : List Touch) ≠ []
    ∧ ([⟨"s1", "v1", none, none, 5⟩, ⟨"s1", "v1", none, none, 9⟩] : List Touch).Pairwise
        (fun a b => a.now ≤ b.now)
    ∧ (∃ r, (applyTouches emptySessions "sess"
          [⟨"s1", "v1", none, none, 5⟩, ⟨"s1", "v1", none, none, 9⟩]) "sess" = some r
        ∧ r.started_at ≤ r.last_activity
        ∧ r.page_count = ([⟨"s1", "v1", none, none, 5⟩,
            ⟨"s1", "v1", none, none, 9⟩] : List Touch).length
        ∧ 1 ≤ r.page_count) :=
  ⟨by decide, by decide,
   C6_session_timing_invariant "sess"
     [⟨"s1", "v1", none, none, 5⟩, ⟨"s1", "v1", none, none, 9⟩]
     (by decide) (by decide)⟩

/-- The Mongo query of `calculateSessionMetrics`: all session rows of the
site whose `started_at` lies in the inclusive window from
`date + "T00:00:00.000Z"` (here the ms instant `dayStart`) to
`date + "T23:59:59.999Z"` (`dayStart + 86399999`). -/
def sessionsOnDate (db : List SessRec) (site : String) (dayStart : Int) :
    List SessRec :=
  db.filter (fun r => r.site_id == site && decide (dayStart ≤ r.started_at)
    && decide (r.started_at ≤ dayStart + 86399999))

/-- The four derived session metrics of a `daily_stats` row. -/
structure Metrics where
  sessions_count : Nat
  avg_session_duration : Int
  avg_pages_per_session : ℚ
  bounce_rate : ℚ
  deriving DecidableEq, Repr

/-- JS `Math.round`: nearest integer, ties rounded toward positive
infinity. -/
def mathRound (x : ℚ) : Int := Int.floor (x + 1 / 2)

/-- `calculateSessionMetrics(site_id, date)` over an explicit list of stored
session rows (numeric division in exact rational arithmetic): zero metrics
when no session matches, otherwise the loop accumulates total duration in
seconds (`(last_activity - started_at) / 1000`), total pages, and the bounce
count (`page_count === 1`), then rounds the three derived averages exactly
as the JS expressions `Math.round(x)`, `Math.round(x * 10) / 10` and
`Math.round(x * 1000) / 10` do. -/
def calculateSessionMetrics (db : List SessRec) (site : String)
    (dayStart : Int) : Metrics :=
  let sessions := sessionsOnDate db site dayStart
  if sessions.length = 0 then ⟨0, 0, 0, 0⟩
  else
    let totalDuration : ℚ := sessions.foldl
      (fun acc r => acc + ((r.last_activity - r.started_at : Int) : ℚ) / 1000) 0
    let totalPages : ℚ := sessions.foldl (fun acc r => acc + (r.page_count : ℚ)) 0
    let bounced : Nat := (sessions.filter (fun r => r.page_count == 1)).length
    ⟨sessions.length,
     mathRound (totalDuration / (sessions.length : ℚ)),
     (mathRound ((totalPages / (sessions.length : ℚ)) * 10) : ℚ) / 10,
     (mathRound (((bounced : ℚ) / (sessions.length : ℚ)) * 1000) : ℚ) / 10⟩

theorem foldl_add_map (l : List SessRec) (f : SessRec → ℚ) (init : ℚ) :
    l.foldl (fun acc r => acc + f r) init = init + (l.map f).sum := by
  induction l generalizing init with
  | nil => simp
  | cons r rest ih =>
    show rest.foldl _ (init + f r) = _
    rw [ih]
    simp [add_assoc]

/-- **C4**: for every site and day window, `calculateSessionMetrics` returns
`sessions_count` = the number of matching sessions; on a non-empty match
set, `avg_session_duration` = the mean duration in seconds rounded to the
nearest integer (`Math.round`), `avg_pages_per_session` = the mean page
count rounded to one decimal, and `bounce_rate` = the fraction of
single-page sessions as a percentage with one decimal; an empty match set
yields exactly `⟨0, 0, 0, 0⟩` (never NaN/undefined); and a singleton match
set with `page_count = 1` yields `bounce_rate = 100`. -/
theorem C4_calculateSessionMetrics_correct (db : List SessRec) (site : String)
    (dayStart : Int) :
    (calculateSessionMetrics db site dayStart).sessions_count
      = (sessionsOnDate db site dayStart).length
    ∧ (sessionsOnDate db site dayStart = [] →
        calculateSessionMetrics db site dayStart = ⟨0, 0, 0, 0⟩)
    ∧ (sessionsOnDate db site dayStart ≠ [] →
        (calculateSessionMetrics db site dayStart).avg_session_duration
          = mathRound (((sessionsOnDate db site dayStart).map
              (fun r => ((r.last_activity - r.started_at : Int) : ℚ) / 1000)).sum
              / ((sessionsOnDate db site dayStart).length : ℚ))
        ∧ (calculateSessionMetrics db site dayStart).avg_pages_per_session
          = (mathRound ((((sessionsOnDate db site dayStart).map
              (fun r => (r.page_count : ℚ))).sum
              / ((sessionsOnDate db site dayStart).length : ℚ)) * 10) : ℚ) / 10
        ∧ (calculateSessionMetrics db site dayStart).bounce_rate
          = (mathRound (((((sessionsOnDate db site dayStart).filter
              (fun r => r.page_count == 1)).length : ℚ)
              / ((sessionsOnDate db site dayStart).length : ℚ)) * 1000) : ℚ) / 10)
    ∧ (∀ r, sessionsOnDate db site dayStart = [r] → r.page_count = 1 →
        (calculateSessionMetrics db site dayStart).bounce_rate = 100) := by
  refine ⟨?_, ?_, ?_, ?_⟩
  · by_cases h : (sessionsOnDate db site dayStart).length = 0
    · simp [calculateSessionMetrics, h]
    · simp [calculateSessionMetrics, h]
  · intro h
    simp [calculateSessionMetrics, h]
  · intro h
    have hlen : ¬ (sessionsOnDate db site dayStart).length = 0 := by
      simpa [List.length_eq_zero] using h
    refine ⟨?_, ?_, ?_⟩
    · simp only [calculateSessionMetrics, hlen, if_false]
      rw [foldl_add_map]
      simp
    · simp only [calculateSessionMetrics, hlen, if_false]
      rw [foldl_add_map]
      simp
    · simp only [calculateSessionMetrics, hlen, if_false]
  · intro r hS hpc
    have hb : (sessionsOnDate db site dayStart).filter
        (fun x => x.page_count == 1) = [r] := by
      rw [hS]
      simp [List.filter_cons, hpc]
    have hlen : ¬ (sessionsOnDate db site dayStart).length = 0 := by
      rw [hS]; simp
    simp only [calculateSessionMetrics, hlen, if_false, hb, hS]
    norm_num [mathRound, List.filter_cons, hpc]

/-- A one-session database for the C4 witness: a 30-second single-page
session starting at instant 0. -/
def wSessDb : List SessRec := [⟨"s1", "v1", 0, 30000, 1, none, none⟩]

/-- Witness for C4: on the concrete one-session database the hypotheses of
the non-empty and singleton-bounce conjuncts hold, and the computed metrics
evaluate to `sessions_count = 1`, `avg_session_duration = 30`,
`avg_pages_per_session = 1` and `bounce_rate = 100`; the empty database
yields all zeros. -/
theorem C4_calculateSessionMetrics_correct_witness :
    sessionsOnDate wSessDb "s1" 0 = [⟨"s1", "v1", 0, 30000, 1, none, none⟩]
    ∧ (⟨"s1", "v1", 0, 30000, 1, none, none⟩ : SessRec).page_count = 1
    ∧ (calculateSessionMetrics wSessDb "s1" 0).sessions_count = 1
    ∧ (calculateSessionMetrics wSessDb "s1" 0).avg_session_duration = 30
    ∧ (calculateSessionMetrics wSessDb "s1" 0).avg_pages_per_session = 1
    ∧ (calculateSessionMetrics wSessDb "s1" 0).bounce_rate = 100
    ∧ calculateSessionMetrics [] "s1" 0 = ⟨0, 0, 0, 0⟩ := by
  have hS : sessionsOnDate wSessDb "s1" 0
      = [⟨"s1", "v1", 0, 30000, 1, none, none⟩] := by decide
  have hmain := C4_calculateSessionMetrics_correct wSessDb "s1" 0
  have hempty := (C4_calculateSessionMetrics_correct [] "s1" 0).2.1 (by decide)
  have hbounce := hmain.2.2.2 ⟨"s1", "v1", 0, 30000, 1, none, none⟩ hS rfl
  have hne : sessionsOnDate wSessDb "s1" 0 ≠ [] := by rw [hS]; simp
  obtain ⟨hdur, hpages, _⟩ := hmain.2.2.1 hne
  refine ⟨hS, rfl, ?_, ?_, ?_, hbounce, hempty⟩
  · rw [hmain.1, hS]; rfl
  · rw [hdur, hS]
    norm_num [mathRound]
  · rw [hpages, hS]
    norm_num [mathRound]

/-- The operations of an unordered bulk write that actually execute, given
which operation indices fail: `bulkWrite(…, { ordered: false })` attempts
every operation and the non-failing ones take effect. -/
def survivors (ops : List OpEntry) (fails : Nat → Bool) : List OpEntry :=
  (ops.enum.filter (fun p => ! fails p.1)).map Prod.snd

/-- The observable outcome of one `flushBuffer` run: whether the batch was
reported processed, the per-buffered-event acknowledgements (resolve = true
/ reject = false), and the resulting `daily_stats` store. -/
structure FlushOutcome where
  succeeded : Bool
  acks : List Bool
  store : StatsStore

/-- `flushBuffer` restricted to its daily-stats bulk write, with an explicit
failure assignment for the bulk operations: the batch succeeds iff no
operation fails (a failure makes the awaited `bulkWrite` promise reject and
control jumps to the `catch` block); on success every buffered event's job
promise is resolved, on failure every one is rejected; the store reflects
the surviving operations of the unordered bulk write in either case. -/
def flushWithFailures (σ : StatsStore) (evs : List SEvent)
    (fails : Nat → Bool) : FlushOutcome :=
  let ops := buildDailyStatsBulkOps evs
  let ok := ops.enum.all (fun p => ! fails p.1)
  ⟨ok, evs.map (fun _ => ok), applyOps σ (survivors ops fails)⟩

/-- **C5** (amended): the acknowledgment level is all-or-nothing — every
buffered event's queue handle receives the same outcome, resolve on flush
success and reject on any storage failure — and a fully successful flush
applies exactly the whole batch; but storage is not atomic across buckets
(see the counterexample: with `ordered: false`, a failing batch can leave a
succeeding bucket's upsert applied). -/
theorem C5_flush_acks_all_or_nothing (σ : StatsStore) (evs : List SEvent)
    (fails : Nat → Bool) :
    (flushWithFailures σ evs fails).acks
      = evs.map (fun _ => (flushWithFailures σ evs fails).succeeded)
    ∧ ((flushWithFailures σ evs fails).succeeded = true →
        (flushWithFailures σ evs fails).store = flushBatch σ evs)
    ∧ ((flushWithFailures σ evs fails).succeeded = false →
        ∀ a ∈ (flushWithFailures σ evs fails).acks, a = false) := by
  refine ⟨rfl, ?_, ?_⟩
  · intro h
    show applyOps σ (survivors (buildDailyStatsBulkOps evs) fails) = _
    have hall : ∀ p ∈ (buildDailyStatsBulkOps evs).enum, (! fails p.1) = true :=
      List.all_eq_true.mp h
    have hsurv : survivors (buildDailyStatsBulkOps evs) fails
        = buildDailyStatsBulkOps evs := by
      unfold survivors
      rw [List.filter_eq_self.mpr hall, List.enum_map_snd]
    rw [hsurv]
    rfl
  · intro h a ha
    have : a = (flushWithFailures σ evs fails).succeeded := by
      have hacks : (flushWithFailures σ evs fails).acks
          = evs.map (fun _ => (flushWithFailures σ evs fails).succeeded) := rfl
      rw [hacks] at ha
      obtain ⟨_, _, hx⟩ := List.mem_map.mp ha
      exact hx.symm
    rw [this, h]

/-- A two-bucket batch for the C5 witness and counterexample. -/
def cBatch2 : List SEvent :=
  [⟨"s1", "2024-01-01", "A", "/a", none, none, none⟩,
   ⟨"s2", "2024-01-01", "B", "/b", none, none, none⟩]

/-- Witness for C5 (amended): with no failing operation the flush is
reported successful, the store equals the full batch application, and every
acknowledgement is the (positive) batch outcome. -/
theorem C5_flush_acks_all_or_nothing_witness :
    (flushWithFailures emptyStore cBatch2 (fun _ => false)).succeeded = true
    ∧ (flushWithFailures emptyStore cBatch2 (fun _ => false)).store
        = flushBatch emptyStore cBatch2
    ∧ (flushWithFailures emptyStore cBatch2 (fun _ => false)).acks
        = cBatch2.map (fun _ =>
            (flushWithFailures emptyStore cBatch2 (fun _ => false)).succeeded) :=
  ⟨by decide,
   (C5_flush_acks_all_or_nothing emptyStore cBatch2 (fun _ => false)).2.1
     (by decide),
   (C5_flush_acks_all_or_nothing emptyStore cBatch2 (fun _ => false)).1⟩

/-- Counterexample to C5 as stated ("no bucket's upsert takes effect when
the batch is reported as failed"): the batch touches buckets
`("s1", 2024-01-01)` and `("s2", 2024-01-01)`; the second bucket's upsert
fails, the batch is reported failed and both queue handles are rejected —
yet the first bucket's upsert has taken effect (`total_views = 1`),
because the daily-stats bulk write runs with `ordered: false` and the
per-bucket upserts are independent single-document operations, not a
transaction. -/
theorem C5_counterexample_partial_commit :
    (flushWithFailures emptyStore cBatch2 (fun i => i == 1)).succeeded = false
    ∧ (flushWithFailures emptyStore cBatch2 (fun i => i == 1)).acks
        = [false, false]
    ∧ ((flushWithFailures emptyStore cBatch2 (fun i => i == 1)).store
        "s1" "2024-01-01").total_views = 1
    ∧ ((flushWithFailures emptyStore cBatch2 (fun i => i == 1)).store
        "s2" "2024-01-01").total_views = 0 := by
  decide

/-- An arbitrary input record as the validator sees it: each recognized
field either absent or a string value. -/
structure RawInput where
  site_id : Option String := none
  event_type : Option String := none
  path : Option String := none
  user_id : Option String := none
  timestamp : Option String := none
  deriving DecidableEq, Repr

/-- Issues for `site_id: z.string().min(1).max(100).optional()`. -/
def siteIdIssues (o : Option String) : List String :=
  match o with
  | none => []
  | some s => if 1 ≤ s.length ∧ s.length ≤ 100 then [] else ["site_id"]

/-- Issues for `event_type: z.string().min(1).max(50)` (required). -/
def eventTypeIssues (o : Option String) : List String :=
  match o with
  | none => ["event_type"]
  | some s => if 1 ≤ s.length ∧ s.length ≤ 50 then [] else ["event_type"]

/-- Issues for `path: z.string().min(1).max(500)` (required). -/
def pathIssues (o : Option String) : List String :=
  match o with
  | none => ["path"]
  | some s => if 1 ≤ s.length ∧ s.length ≤ 500 then [] else ["path"]

/-- Issues for `user_id: z.string().min(1).max(100)` (required). -/
def userIdIssues (o : Option String) : List String :=
  match o with
  | none => ["user_id"]
  | some s => if 1 ≤ s.length ∧ s.length ≤ 100 then [] else ["user_id"]

/-- Issues for `timestamp: z.string().datetime().optional()`; the datetime
format check of the zod library is abstracted as a predicate. -/
def timestampIssues (isDT : String → Bool) (o : Option String) : List String :=
  match o with
  | none => []
  | some s => if isDT s then [] else ["timestamp"]

/-- All issues `EventSchema.parse` collects for a record: zod object parsing
checks every key and aggregates one issue list covering every violated
field, not only the first. -/
def fieldIssues (inp : RawInput) (isDT : String → Bool) : List String :=
  siteIdIssues inp.site_id ++ eventTypeIssues inp.event_type
    ++ pathIssues inp.path ++ userIdIssues inp.user_id
    ++ timestampIssues isDT inp.timestamp

/-- The normalized value `validateEvent` returns on success (the parsed
record with the timestamp default applied). -/
structure EventInput where
  site_id : Option String
  event_type : String
  path : String
  user_id : String
  timestamp : String
  deriving DecidableEq, Repr

/-- `validateEvent`: parse the record against `EventSchema`; on success,
a missing `timestamp` is set to the ingestion-time now
(`new Date().toISOString()`, made an explicit parameter); on failure the
`ZodError` carries the collected issues. -/
def validateEvent (inp : RawInput) (isDT : String → Bool) (nowIso : String) :
    Except (List String) EventInput :=
  if fieldIssues inp isDT = [] then
    .ok ⟨inp.site_id, inp.event_type.getD "", inp.path.getD "",
         inp.user_id.getD "", inp.timestamp.getD nowIso⟩
  else
    .error (fieldIssues inp isDT)

theorem mem_siteIdIssues (o : Option String) (x : String) :
    x ∈ siteIdIssues o ↔ x = "site_id" ∧ ∃ s, o = some s ∧ ¬(1 ≤ s.length ∧ s.length ≤ 100) := by
  cases o with
  | none => simp [siteIdIssues]
  | some s =>
    by_cases h : 1 ≤ s.length ∧ s.length ≤ 100 <;> simp [siteIdIssues, h] <;> omega

theorem mem_eventTypeIssues (o : Option String) (x : String) :
    x ∈ eventTypeIssues o
      ↔ x = "event_type" ∧ ¬ ∃ s, o = some s ∧ 1 ≤ s.length ∧ s.length ≤ 50 := by
  cases o with
  | none => simp [eventTypeIssues]
  | some s =>
    by_cases h : 1 ≤ s.length ∧ s.length ≤ 50 <;> simp [eventTypeIssues, h]

theorem mem_pathIssues (o : Option String) (x : String) :
    x ∈ pathIssues o
      ↔ x = "path" ∧ ¬ ∃ s, o = some s ∧ 1 ≤ s.length ∧ s.length ≤ 500 := by
  cases o with
  | none => simp [pathIssues]
  | some s =>
    by_cases h : 1 ≤ s.length ∧ s.length ≤ 500 <;> simp [pathIssues, h]

theorem mem_userIdIssues (o : Option String) (x : String) :
    x ∈ userIdIssues o
      ↔ x = "user_id" ∧ ¬ ∃ s, o = some s ∧ 1 ≤ s.length ∧ s.length ≤ 100 := by
  cases o with
  | none => simp [userIdIssues]
  | some s =>
    by_cases h : 1 ≤ s.length ∧ s.length ≤ 100 <;> simp [userIdIssues, h]

theorem mem_timestampIssues (isDT : String → Bool) (o : Option String) (x : String) :
    x ∈ timestampIssues isDT o
      ↔ x = "timestamp" ∧ ∃ s, o = some s ∧ isDT s = false := by
  cases o with
  | none => simp [timestampIssues]
  | some s =>
    by_cases h : isDT s = true
    · simp [timestampIssues, h]
    · simp only [Bool.not_eq_true] at h
      simp [timestampIssues, h]

/-- **C8**: for every input record, `validateEvent` either returns the
normalized event value or fails with a validation error that enumerates
every violated field (not only the first): the error list contains
`event_type` / `path` / `user_id` exactly when that required field is
absent, empty, or over its length bound, `site_id` exactly when present but
out of bounds, and `timestamp` exactly when present but failing the
datetime parse; a missing timestamp is defaulted to the ingestion-time
now on the returned event, and a present-but-unparsable timestamp makes
validation fail. -/
theorem C8_validateEvent_contract (inp : RawInput) (isDT : String → Bool)
    (nowIso : String) :
    (fieldIssues inp isDT = [] →
      validateEvent inp isDT nowIso
        = Except.ok ⟨inp.site_id, inp.event_type.getD "", inp.path.getD "",
            inp.user_id.getD "", inp.timestamp.getD nowIso⟩)
    ∧ (fieldIssues inp isDT ≠ [] →
        validateEvent inp isDT nowIso = Except.error (fieldIssues inp isDT))
    ∧ ("event_type" ∈ fieldIssues inp isDT
        ↔ ¬ ∃ s, inp.event_type = some s ∧ 1 ≤ s.length ∧ s.length ≤ 50)
    ∧ ("path" ∈ fieldIssues inp isDT
        ↔ ¬ ∃ s, inp.path = some s ∧ 1 ≤ s.length ∧ s.length ≤ 500)
    ∧ ("user_id" ∈ fieldIssues inp isDT
        ↔ ¬ ∃ s, inp.user_id = some s ∧ 1 ≤ s.length ∧ s.length ≤ 100)
    ∧ ("site_id" ∈ fieldIssues inp isDT
        ↔ ∃ s, inp.site_id = some s ∧ ¬(1 ≤ s.length ∧ s.length ≤ 100))
    ∧ ("timestamp" ∈ fieldIssues inp isDT
        ↔ ∃ s, inp.timestamp = some s ∧ isDT s = false)
    ∧ (inp.timestamp = none →
        ∀ ev, validateEvent inp isDT nowIso = Except.ok ev
          → ev.timestamp = nowIso)
    ∧ (∀ s, inp.timestamp = some s → isDT s = false →
        ∃ l, validateEvent inp isDT nowIso = Except.error l
          ∧ "timestamp" ∈ l) := by
  refine ⟨?_, ?_, ?_, ?_, ?_, ?_, ?_, ?_, ?_⟩
  · intro h; simp [validateEvent, h]
  · intro h; simp [validateEvent, h]
  · simp [fieldIssues, List.mem_append, mem_siteIdIssues, mem_eventTypeIssues,
      mem_pathIssues, mem_userIdIssues, mem_timestampIssues]
  · simp [fieldIssues, List.mem_append, mem_siteIdIssues, mem_eventTypeIssues,
      mem_pathIssues, mem_userIdIssues, mem_timestampIssues]
  · simp [fieldIssues, List.mem_append, mem_siteIdIssues, mem_eventTypeIssues,
      mem_pathIssues, mem_userIdIssues, mem_timestampIssues]
  · simp [fieldIssues, List.mem_append, mem_siteIdIssues, mem_eventTypeIssues,
      mem_pathIssues, mem_userIdIssues, mem_timestampIssues]
  · simp [fieldIssues, List.mem_append, mem_siteIdIssues, mem_eventTypeIssues,
      mem_pathIssues, mem_userIdIssues, mem_timestampIssues]
  · intro h ev hok
    by_cases hf : fieldIssues inp isDT = []
    · simp only [validateEvent, hf, if_true, ite_true, Except.ok.injEq] at hok
      rw [← hok]
      simp [h]
    · simp [validateEvent, hf] at hok
  · intro s hs hbad
    have hmem : "timestamp" ∈ fieldIssues inp isDT := by
      simp [fieldIssues, List.mem_append, mem_siteIdIssues, mem_eventTypeIssues,
        mem_pathIssues, mem_userIdIssues, mem_timestampIssues]
      exact ⟨s, hs, hbad⟩
    have hne : fieldIssues inp isDT ≠ [] := by
      intro hc; rw [hc] at hmem; simp at hmem
    exact ⟨fieldIssues inp isDT, by simp [validateEvent, hne], hmem⟩

/-- A fully valid input without timestamp, for the C8 witness. -/
def wGoodInput : RawInput :=
  { site_id := some "s1", event_type := some "pageview",
    path := some "/home", user_id := some "u1", timestamp := none }

/-- An input violating three fields at once (missing `event_type`, empty
`path`, unparsable `timestamp`), for the C8 witness. -/
def wBadInput : RawInput :=
  { site_id := none, event_type := none, path := some "",
    user_id := some "u1", timestamp := some "not-a-datetime" }

/-- Witness for C8: the valid input parses with the timestamp defaulted to
the ingestion-time now, and the three-violation input fails with an error
list enumerating exactly its three violated fields. -/
theorem C8_validateEvent_contract_witness :
    fieldIssues wGoodInput (fun _ => false) = []
    ∧ validateEvent wGoodInput (fun _ => false) "2024-01-01T00:00:00.000Z"
        = Except.ok ⟨some "s1", "pageview", "/home", "u1",
            "2024-01-01T00:00:00.000Z"⟩
    ∧ wGoodInput.timestamp = none
    ∧ fieldIssues wBadInput (fun _ => false)
        = ["event_type", "path", "timestamp"]
    ∧ (∃ l, validateEvent wBadInput (fun _ => false) "2024-01-01T00:00:00.000Z"
        = Except.error l ∧ "timestamp" ∈ l) :=
  ⟨by decide,
   by
    have h := (C8_validateEvent_contract wGoodInput (fun _ => false)
      "2024-01-01T00:00:00.000Z").1 (by decide)
    rw [h]; rfl,
   rfl,
   by decide,
   (C8_validateEvent_contract wBadInput (fun _ => false)
      "2024-01-01T00:00:00.000Z").2.2.2.2.2.2.2.2 "not-a-datetime" rfl rfl⟩

/-- State of the worker's dirty-key tracking and of the metric writes a
recalculation performs: `dirty` mirrors the `processedDates` set of
`site::date` keys (insertion ordered), `written` records, in order, the
keys whose `daily_stats` row had its four session-metric fields set. -/
structure RecalcState where
  dirty : List String
  written : List String
  deriving DecidableEq, Repr

/-- `processedDates.add(key)`: mark a bucket dirty (as `flushBuffer` does
for every event's `site::date` key). -/
def markDirty (st : RecalcState) (k : String) : RecalcState :=
  { st with dirty := insertIfAbsent st.dirty k }

/-- One run of `recalculateSessionMetrics`: snapshot the dirty set and clear
it up front (`const dates = Array.from(processedDates);
processedDates.clear()`), then attempt each key inside
`try { … } catch (err) { logError(…) }`: a failing key is only logged —
nothing is written for it and it is not re-marked dirty — and the loop
continues with the next key; a succeeding key gets its metrics written. -/
def recalculateSessionMetrics (st : RecalcState) (failsOn : String → Bool) :
    RecalcState :=
  let dates := st.dirty
  let st1 : RecalcState := { st with dirty := [] }
  dates.foldl (fun acc k =>
    if failsOn k then acc else { acc with written := acc.written ++ [k] }) st1

theorem recalc_fold_spec (failsOn : String → Bool) (dates : List String)
    (acc : RecalcState) :
    (dates.foldl (fun acc k =>
        if failsOn k then acc else { acc with written := acc.written ++ [k] })
      acc).written = acc.written ++ dates.filter (fun k => ! failsOn k)
    ∧ (dates.foldl (fun acc k =>
        if failsOn k then acc else { acc with written := acc.written ++ [k] })
      acc).dirty = acc.dirty := by
  induction dates generalizing acc with
  | nil => simp
  | cons k rest ih =>
    by_cases h : failsOn k
    · simpa [List.filter_cons, h] using ih acc
    · have := ih { acc with written := acc.written ++ [k] }
      simpa [List.filter_cons, h] using this

/-- **C9**: during one run of the periodic recalculation job over the
accumulated dirty keys, every key whose recalculation succeeds is processed
regardless of failures on any other key (the written keys are exactly the
non-failing dirty keys, in order); the dirty set is cleared at the start of
the run, so a failing key is not in the dirty set afterwards; a second run
without re-marking writes nothing further; and re-marking a key makes it
the dirty set's sole member, eligible for the next run. -/
theorem C9_recalc_failure_isolation (st : RecalcState)
    (failsOn : String → Bool) :
    (recalculateSessionMetrics st failsOn).written
      = st.written ++ st.dirty.filter (fun k => ! failsOn k)
    ∧ (recalculateSessionMetrics st failsOn).dirty = []
    ∧ (∀ k ∈ st.dirty, failsOn k = true →
        k ∉ (recalculateSessionMetrics st failsOn).dirty)
    ∧ (recalculateSessionMetrics
        (recalculateSessionMetrics st failsOn) failsOn).written
      = (recalculateSessionMetrics st failsOn).written
    ∧ (∀ k, (markDirty (recalculateSessionMetrics st failsOn) k).dirty = [k]) := by
  have h1 := recalc_fold_spec failsOn st.dirty { st with dirty := [] }
  have hw : (recalculateSessionMetrics st failsOn).written
      = st.written ++ st.dirty.filter (fun k => ! failsOn k) := h1.1
  have hd : (recalculateSessionMetrics st failsOn).dirty = [] := h1.2
  refine ⟨hw, hd, ?_, ?_, ?_⟩
  · intro k _ _ hc
    rw [hd] at hc
    simp at hc
  · have h2 := recalc_fold_spec failsOn
      (recalculateSessionMetrics st failsOn).dirty
      { recalculateSessionMetrics st failsOn with dirty := [] }
    have hw2 : (recalculateSessionMetrics
          (recalculateSessionMetrics st failsOn) failsOn).written
        = (recalculateSessionMetrics st failsOn).written
          ++ (recalculateSessionMetrics st failsOn).dirty.filter
              (fun k => ! failsOn k) := h2.1
    rw [hw2, hd]
    simp
  · intro k
    simp [markDirty, hd, insertIfAbsent]

/-- Witness for C9: with dirty keys `a, b, c` where only `b` fails, the run
writes `a` and `c`, clears the dirty set (so `b` is gone), a second run
writes nothing more, and re-marking `b` makes it dirty again. -/
theorem C9_recalc_failure_isolation_witness :
    ("b" : String) ∈ (⟨["a", "b", "c"], []⟩ : RecalcState).dirty
    ∧ (fun k => k == "b") ("b" : String) = true
    ∧ ((recalculateSessionMetrics ⟨["a", "b", "c"], []⟩ (fun k => k == "b")).written
        = ([] : List String) ++ ["a", "b", "c"].filter (fun k => ! (k == "b"))
      ∧ (recalculateSessionMetrics ⟨["a", "b", "c"], []⟩ (fun k => k == "b")).dirty = []
      ∧ (∀ k ∈ (⟨["a", "b", "c"], []⟩ : RecalcState).dirty, (fun k => k == "b") k = true →
          k ∉ (recalculateSessionMetrics ⟨["a", "b", "c"], []⟩ (fun k => k == "b")).dirty)
      ∧ (recalculateSessionMetrics
          (recalculateSessionMetrics ⟨["a", "b", "c"], []⟩ (fun k => k == "b"))
          (fun k => k == "b")).written
        = (recalculateSessionMetrics ⟨["a", "b", "c"], []⟩ (fun k => k == "b")).written
      ∧ (∀ k, (markDirty (recalculateSessionMetrics ⟨["a", "b", "c"], []⟩
          (fun k => k == "b")) k).dirty = [k])) :=
  ⟨by decide, by decide,
   C9_recalc_failure_isolation ⟨["a", "b", "c"], []⟩ (fun k => k == "b")⟩

theorem fallback_ne_empty (o : Option String) (u : String) (hu : u ≠ "") :
    fallback o u ≠ "" := by
  cases o with
  | none => exact hu
  | some s =>
    by_cases h : s = "" <;> simp [fallback, h, hu]

/-- The identity fields of the `events`-collection document `flushBuffer`
inserts for one buffered event: `session_id: b.data.session_id ||
b.data.user_id`, `visitor_id: b.data.visitor_id || b.data.user_id`, with
`user_id` kept for backward compatibility. -/
structure EventDoc where
  site_id : String
  session_id : String
  visitor_id : String
  event_type : String
  path : String
  user_id : String
  timestamp : Int
  deriving DecidableEq, Repr

def eventDocOf (ev : WEvent) : EventDoc :=
  ⟨ev.site_id, fallback ev.session_id ev.user_id,
   fallback ev.visitor_id ev.user_id, ev.event_type, ev.path,
   ev.user_id, ev.timestamp⟩

/-- The arguments of the `updateSession` call `flushBuffer` issues for one
buffered event: `updateSession(b.data.session_id || b.data.user_id,
b.data.site_id, b.data.visitor_id || b.data.user_id, b.data.referrer,
b.data.user_agent)`. -/
structure SessionTouchArgs where
  session_id : String
  site_id : String
  visitor_id : String
  referrer : Option String
  user_agent : Option String
  deriving DecidableEq, Repr

def sessionTouchOf (ev : WEvent) : SessionTouchArgs :=
  ⟨fallback ev.session_id ev.user_id, ev.site_id,
   fallback ev.visitor_id ev.user_id, ev.referrer, ev.user_agent⟩

/-- The stats event `flushBuffer` hands to `buildDailyStatsBulkOps` for one
buffered event; `fmt` abstracts `formatDate(new Date(b.data.timestamp))`. -/
def statsEventOf (fmt : Int → String) (ev : WEvent) : SEvent :=
  ⟨ev.site_id, fmt ev.timestamp, fallback ev.visitor_id ev.user_id, ev.path,
   ev.device_type, ev.browser, ev.referrer⟩

/-- **C10**: at the processing boundary, a missing (or empty — JS falsiness)
`session_id` falls back to `user_id` both in the persisted event document
and in the Session upsert key, and a missing `visitor_id` falls back to
`user_id` in the persisted document, the Session row's visitor argument and
the unique-users aggregation input; the document's `session_id` and the
Session upsert key are always the same expression; and whenever `user_id`
and `site_id` are non-empty (input validation requires `user_id`, the
authenticated route injects `site_id`), every persisted event and touched
session carries a fully non-empty identity triple. -/
theorem C10_identity_fallback (fmt : Int → String) (ev : WEvent) :
    ((ev.session_id = none ∨ ev.session_id = some "") →
      (eventDocOf ev).session_id = ev.user_id
      ∧ (sessionTouchOf ev).session_id = ev.user_id)
    ∧ ((ev.visitor_id = none ∨ ev.visitor_id = some "") →
      (eventDocOf ev).visitor_id = ev.user_id
      ∧ (sessionTouchOf ev).visitor_id = ev.user_id
      ∧ (statsEventOf fmt ev).visitor_id = ev.user_id)
    ∧ (eventDocOf ev).session_id = (sessionTouchOf ev).session_id
    ∧ (eventDocOf ev).visitor_id = (statsEventOf fmt ev).visitor_id
    ∧ (ev.user_id ≠ "" → ev.site_id ≠ "" →
        (eventDocOf ev).site_id ≠ ""
        ∧ (eventDocOf ev).session_id ≠ ""
        ∧ (eventDocOf ev).visitor_id ≠ ""
        ∧ (sessionTouchOf ev).session_id ≠ ""
        ∧ (sessionTouchOf ev).visitor_id ≠ ""
        ∧ (statsEventOf fmt ev).visitor_id ≠ "") := by
  refine ⟨?_, ?_, rfl, rfl, ?_⟩
  · intro h
    rcases h with h | h <;>
      exact ⟨by simp [eventDocOf, fallback, h], by simp [sessionTouchOf, fallback, h]⟩
  · intro h
    rcases h with h | h <;>
      exact ⟨by simp [eventDocOf, fallback, h],
             by simp [sessionTouchOf, fallback, h],
             by simp [statsEventOf, fallback, h]⟩
  · intro hu hs
    exact ⟨hs, fallback_ne_empty _ _ hu, fallback_ne_empty _ _ hu,
           fallback_ne_empty _ _ hu, fallback_ne_empty _ _ hu,
           fallback_ne_empty _ _ hu⟩

/-- A buffered event with no `session_id`/`visitor_id`, for the C10
witness. -/
def wLegacyEvent : WEvent :=
  { site_id := "s1", event_type := "pageview", path := "/home",
    user_id := "u1", timestamp := 1700000000000 }

/-- Witness for C10 at a concrete legacy event (no `session_id`, no
`visitor_id`, non-empty `user_id` and `site_id`). -/
theorem C10_identity_fallback_witness :
    (wLegacyEvent.session_id = none ∨ wLegacyEvent.session_id = some "")
    ∧ (wLegacyEvent.visitor_id = none ∨ wLegacyEvent.visitor_id = some "")
    ∧ wLegacyEvent.user_id ≠ "" ∧ wLegacyEvent.site_id ≠ ""
    ∧ (eventDocOf wLegacyEvent).session_id = wLegacyEvent.user_id
    ∧ (sessionTouchOf wLegacyEvent).session_id = wLegacyEvent.user_id
    ∧ (statsEventOf (fun _ => "2023-11-14") wLegacyEvent).visitor_id
        = wLegacyEvent.user_id
    ∧ (eventDocOf wLegacyEvent).session_id ≠ ""
    ∧ (statsEventOf (fun _ => "2023-11-14") wLegacyEvent).visitor_id ≠ "" :=
  ⟨Or.inl rfl, Or.inl rfl, by decide, by decide,
   ((C10_identity_fallback (fun _ => "2023-11-14") wLegacyEvent).1
     (Or.inl rfl)).1,
   ((C10_identity_fallback (fun _ => "2023-11-14") wLegacyEvent).1
     (Or.inl rfl)).2,
   (((C10_identity_fallback (fun _ => "2023-11-14") wLegacyEvent).2.1
     (Or.inl rfl))).2.2,
   (((C10_identity_fallback (fun _ => "2023-11-14") wLegacyEvent).2.2.2.2
     (by decide) (by decide))).2.1,
   (((C10_identity_fallback (fun _ => "2023-11-14") wLegacyEvent).2.2.2.2
     (by decide) (by decide))).2.2.2.2.2⟩
